import Mathlib

/-!
Verification of the price-tracking core of the `api-jogos` repository.

Strings are modelled as `List Char`; Python floats are modelled as exact
numbers (`ℚ` where decimals matter, `WithTop ℕ` for the integer-or-infinity
values produced by `clean_price_to_float`, where `⊤` stands for
`float('inf')`, the "price unavailable" sentinel).
-/

namespace ApiJogos

/-- Strings are modelled as lists of characters. -/
abbrev Str := List Char

/-- ASCII lowercasing of one character, modelling `str.lower()` on the
character sets that occur in the repository's data. -/
def pyLowerChar (c : Char) : Char :=
  if 65 ≤ c.toNat ∧ c.toNat ≤ 90 then Char.ofNat (c.toNat + 32) else c

/-- `str.lower()`. -/
def pyLower (s : Str) : Str := s.map pyLowerChar

/-- Python `str.isspace` set used by `str.strip()` and `\s`. -/
def isPySpace (c : Char) : Bool :=
  c = ' ' ∨ c = '\t' ∨ c = '\n' ∨ c = '\r' ∨ c = '\x0b' ∨ c = '\x0c'

/-- `str.strip()`: remove leading and trailing whitespace. -/
def pyStrip (s : Str) : Str :=
  ((s.dropWhile isPySpace).reverse.dropWhile isPySpace).reverse

/-- Python substring test `needle in hay`. -/
def containsSub (needle : Str) : Str → Bool
  | [] => needle.isEmpty
  | c :: rest => needle.isPrefixOf (c :: rest) || containsSub needle rest

/-- Worker for `str.replace`: `skip` counts characters of a just-matched
pattern still to be consumed, so the scan resumes after each match, exactly
as Python's `str.replace` does.  The pattern is `p :: ps` (non-empty). -/
def pyReplaceAux (p : Char) (ps new : Str) : ℕ → Str → Str
  | _, [] => []
  | 0, c :: rest =>
    if c = p ∧ ps.isPrefixOf rest then new ++ pyReplaceAux p ps new ps.length rest
    else c :: pyReplaceAux p ps new 0 rest
  | n + 1, _ :: rest => pyReplaceAux p ps new n rest

/-- `s.replace(p :: ps, new)`. -/
def pyReplace (p : Char) (ps new : Str) (s : Str) : Str :=
  pyReplaceAux p ps new 0 s

/-- ASCII digit test, the `\d` class on the data at hand. -/
def isDigitChar (c : Char) : Bool := 48 ≤ c.toNat ∧ c.toNat ≤ 57

/-- Value of a decimal digit string, most significant digit first. -/
def digitsVal (l : Str) : ℕ :=
  l.foldl (fun a c => 10 * a + (c.toNat - 48)) 0

/-- `re.search(r'\d[\d\.]*', s)`: the first maximal run of digits and dots
starting at the first digit of `s`, if any. -/
def findNumSpan : Str → Option Str
  | [] => none
  | c :: rest =>
    if isDigitChar c then some (c :: rest.takeWhile (fun d => isDigitChar d ∨ d = '.'))
    else findNumSpan rest

/-- Split a string at its first `'.'`, if any. -/
def splitFirstDot : Str → Str × Option Str
  | [] => ([], none)
  | c :: rest =>
    if c = '.' then ([], some rest)
    else
      let r := splitFirstDot rest
      (c :: r.1, r.2)

/-- Model of `float(m)` for a regex match `m` of `\d[\d\.]*`, as the pair
(integer part, fractional digit string): valid exactly when `m` holds at
most one dot (`float` raises `ValueError` on a second dot). -/
def parseDecimal (l : Str) : Option (ℕ × Str) :=
  match splitFirstDot l with
  | (a, none) => some (digitsVal a, [])
  | (a, some b) => if '.' ∈ b then none else some (digitsVal a, b)

/-- `math.ceil` of the decimal number `a . b` (integer part `a`, fractional
digit string `b`): the fraction is strictly between 0 and 1 unless its
digits are all zero, so the ceiling is `a` plus an indicator. -/
def decCeil (a : ℕ) (b : Str) : ℕ :=
  a + (if digitsVal b = 0 then 0 else 1)

def gratuitoTok : Str := "gratuito".toList
def freeTok : Str := "free".toList
def gratisTok : Str := "grátis".toList
def naoEncontradoTok : Str := "não encontrado".toList
def precoIndisponivelTok : Str := "preço indisponível".toList

/-- `clean_price_to_float` (src/services/price_scraper_service.py, lines
124-146).  `⊤` models `float('inf')`; numeric results are the
`math.ceil`-rounded values, hence naturals. -/
def cleanPriceToFloat (s : Str) : WithTop ℕ :=
  let lower := pyStrip (pyLower s)
  if containsSub gratuitoTok lower || containsSub freeTok lower ||
      containsSub gratisTok lower then
    (0 : ℕ)
  else if containsSub naoEncontradoTok lower || containsSub precoIndisponivelTok lower then
    ⊤
  else
    let cleaned := pyStrip (pyReplace ',' [] ['.'] (pyReplace '.' [] []
      (pyReplace 'r' ['$'] [] s)))
    match findNumSpan cleaned with
    | none => ⊤
    | some span =>
      match parseDecimal span with
      | none => ⊤
      | some (a, b) => (decCeil a b : ℕ)

/-- Decimal rendering of a natural number, `str(int(x))` for positive `x`. -/
def natToChars (n : ℕ) : Str :=
  (Nat.digits 10 n).reverse.map (fun d => Char.ofNat (48 + d))

/-- `format_float_to_price_str` (src/services/price_scraper_service.py,
lines 148-158). -/
def formatFloatToPriceStr (p : WithTop ℕ) : Str :=
  if p = (0 : ℕ) then ['0']
  else
    match p with
    | ⊤ => "Não encontrado".toList
    | (n : ℕ) => natToChars n

def renderLocale (ip : Str) (f1 f2 : Char) : Str :=
  'R' :: '$' :: ' ' :: (ip ++ ',' :: [f1, f2])

def localeVal (ip : Str) (f1 f2 : Char) : ℚ :=
  (digitsVal (ip.filter (fun c => ¬ c = '.')) : ℚ) + (digitsVal [f1, f2] : ℚ) / 100

def ipOk (ip : Str) : Prop :=
  (∀ c ∈ ip, isDigitChar c = true ∨ c = '.') ∧ ∃ d t, ip = d :: t ∧ isDigitChar d = true

/-- Python `round` to an integer: round-half-to-even (banker's rounding). -/
def pyRound (q : ℚ) : ℤ :=
  if q - ⌊q⌋ < 1/2 then ⌊q⌋
  else if 1/2 < q - ⌊q⌋ then ⌊q⌋ + 1
  else if Even ⌊q⌋ then ⌊q⌋ else ⌊q⌋ + 1

/-- Model of `float(s)` applied to a whole cleaned price string: defined on
digits-and-dot strings (the shapes reachable from price text), `none`
models `ValueError`. -/
def parseFullFloat (l : Str) : Option ℚ :=
  if l ≠ [] ∧ (∀ c ∈ l, isDigitChar c = true ∨ c = '.') ∧ (∃ c ∈ l, isDigitChar c = true)
  then
    match splitFirstDot l with
    | (a, none) => some ((digitsVal a : ℚ))
    | (a, some b) =>
      if '.' ∈ b then none
      else some ((digitsVal a : ℚ) + (digitsVal b : ℚ) / 10 ^ b.length)
  else none

def indisponivelTok : Str := "indisponível".toList

/-- `price_to_float` (src/services/price_tracker_service.py, lines 11-18):
`None` for text containing "indisponível" or "gratuito", otherwise strips
`"R$"`, swaps separators and rounds with Python `round` (half-to-even). -/
def priceToFloat (s : Str) : Option ℤ :=
  if containsSub indisponivelTok (pyLower s) || containsSub gratuitoTok (pyLower s) then
    none
  else
    let cleaned := pyStrip (pyReplace ',' [] ['.'] (pyReplace '.' [] []
      (pyReplace 'R' ['$'] [] s)))
    match parseFullFloat cleaned with
    | none => none
    | some q => some (pyRound q)

/-! ### The title normalizer `_clean_game_title` -/


def isWordChar (c : Char) : Bool :=
  isDigitChar c || (97 ≤ c.toNat ∧ c.toNat ≤ 122) || (65 ≤ c.toNat ∧ c.toNat ≤ 90) || c = '_'

def wordBoundaryAfter (ks rest : Str) : Bool :=
  match rest.drop ks.length with
  | [] => true
  | d :: _ => !(isWordChar d)

def subWordAux (k : Char) (ks : Str) : ℕ → Bool → Str → Str
  | _, _, [] => []
  | n + 1, pw, _ :: rest => subWordAux k ks n pw rest
  | 0, pw, c :: rest =>
    if pw = false ∧ c = k ∧ ks.isPrefixOf rest ∧ wordBoundaryAfter ks rest = true then
      subWordAux k ks ks.length (isWordChar (ks.getLastD k)) rest
    else c :: subWordAux k ks 0 (isWordChar c) rest

def subWord (kw : Str) (s : Str) : Str :=
  match kw with
  | [] => s
  | k :: ks => subWordAux k ks 0 false s

def findCloseLen (cl : Char) : Str → Option ℕ
  | [] => none
  | c :: rest =>
    if c = cl then some 1
    else if c = '\n' then none
    else (findCloseLen cl rest).map (· + 1)

def subPairAux (oc cl : Char) : ℕ → Str → Str
  | _, [] => []
  | n + 1, _ :: rest => subPairAux oc cl n rest
  | 0, c :: rest =>
    if c = oc then
      match findCloseLen cl rest with
      | some m => subPairAux oc cl m rest
      | none => c :: subPairAux oc cl 0 rest
    else c :: subPairAux oc cl 0 rest

def subPair (oc cl : Char) (s : Str) : Str := subPairAux oc cl 0 s

def collapseWSAux : Bool → Str → Str
  | _, [] => []
  | prev, c :: rest =>
    if isPySpace c then
      if prev then collapseWSAux true rest else ' ' :: collapseWSAux true rest
    else c :: collapseWSAux false rest

def collapseWS (s : Str) : Str := collapseWSAux false s

def cleanGameTitle (title : Str) : Str :=
  let t0 := pyLower title
  let t1 := subWord "ps4".toList t0
  let t2 := subWord "ps5".toList t1
  let t3 := subWord "playstation".toList t2
  let t4 := subWord "deluxe edition".toList t3
  let t5 := subWord "special edition".toList t4
  let t6 := subWord "standard edition".toList t5
  let t7 := subWord "ultimate edition".toList t6
  let t8 := subWord "remastered".toList t7
  let t9 := subWord "goty".toList t8
  let t10 := subWord "game of the year".toList t9
  let t11 := subWord "edition".toList t10
  let t12 := pyReplace '™' [] [] t11
  let t13 := pyReplace '®' [] [] t12
  let t14 := subPair '(' ')' t13
  let t15 := subPair '[' ']' t14
  pyStrip (collapseWS t15)

/-! ### Scraper results, historical low, retry loop, batch loop -/

inductive Platform
  | steam
  | psn
deriving DecidableEq

/-- Result dictionary of the scrapers in
src/services/price_scraper_service.py (`search_game_price` /
`_format_error`). -/
structure ScrapeResult where
  found : Bool
  title : Option Str
  priceStr : Str
  priceFloat : WithTop ℕ
  similarityScore : ℕ
deriving DecidableEq

/-- The `_format_error` dictionary: not found, price `float('inf')`. -/
def scrapeFormatError : ScrapeResult :=
  ⟨false, none, "Não encontrado".toList, ⊤, 0⟩

/-- One platform's historical-low update in `run_scraper`
(src/services/price_scraper_service.py, lines 437-448 for Steam and
455-466 for PSN): the stored string is re-parsed, replaced when the
current price is strictly lower, and initialised on the first found
observation. -/
def stepHist (histStr : Str) (r : ScrapeResult) : Str :=
  if r.priceFloat < cleanPriceToFloat histStr then formatFloatToPriceStr r.priceFloat
  else if cleanPriceToFloat histStr = ⊤ ∧ r.found = true then
    formatFloatToPriceStr r.priceFloat
  else histStr

/-- The historical-low cell after a sequence of scraper observations. -/
def runHist (init : Str) (obs : List ScrapeResult) : Str :=
  obs.foldl stepHist init

def MAX_RETRIES : ℕ := 3

def RETRY_DELAY_SECONDS : ℕ := 2

/-- Result dictionary of the scrapers in
src/services/price_tracker_service.py. -/
structure QuoteResult where
  found : Bool
  title : Option Str
  finalPrice : Str
  originalPrice : Option Str
  url : Option Str
  platform : Platform
deriving DecidableEq

/-- `_format_error` of the tracker scrapers. -/
def trackerFormatError (p : Platform) (msg : Str) : QuoteResult :=
  ⟨false, none, msg, none, none, p⟩

/-- The retry loop of `SteamScraper.search_game_price`
(src/services/price_tracker_service.py, lines 36-46): attempt `fuel` more
requests starting at attempt index `i`; `outcomes i` tells whether attempt
`i` succeeds.  Returns the successful attempt index (if any) and the list
of sleep durations executed (the loop sleeps `RETRY_DELAY_SECONDS *
(attempt + 1)` after every failed attempt). -/
def runAttempts (base : ℕ) (outcomes : ℕ → Bool) : ℕ → ℕ → Option ℕ × List ℕ
  | 0, _ => (none, [])
  | fuel + 1, i =>
    if outcomes i then (some i, [])
    else
      let r := runAttempts base outcomes fuel (i + 1)
      (r.1, base * (i + 1) :: r.2)

/-- `search_game_price` of the tracker `SteamScraper`, with the HTTP
outcomes and the parsing of a successful response abstracted: on the
`for`/`else` path (all attempts failed) it returns the single error
result instead of raising. -/
def searchGamePriceRetry (outcomes : ℕ → Bool) (parsed : List QuoteResult) :
    List QuoteResult × List ℕ :=
  let r := runAttempts RETRY_DELAY_SECONDS outcomes MAX_RETRIES 0
  match r.1 with
  | none =>
    ([trackerFormatError Platform.steam "Número máximo de tentativas excedido.".toList],
      r.2)
  | some _ => (parsed, r.2)

/-- A row of the `Desejos` sheet as `run_scraper` sees it. -/
structure GameRow where
  nome : Str
  steamCurStr : Str
  steamHistStr : Str
  psnCurStr : Str
  psnHistStr : Str
  ultima : Str
deriving DecidableEq

/-- One iteration of the per-game loop of `run_scraper`
(src/services/price_scraper_service.py, lines 425-470): rows with an
empty name are skipped; otherwise both platforms' current prices and
historical lows and the update date are written from that game's own
scrape results alone. -/
def processRow (date : Str) (row : GameRow) (sRes pRes : ScrapeResult) : GameRow :=
  if pyStrip row.nome = [] then row
  else
    { nome := row.nome
      steamCurStr := formatFloatToPriceStr sRes.priceFloat
      steamHistStr := stepHist row.steamHistStr sRes
      psnCurStr := formatFloatToPriceStr pRes.priceFloat
      psnHistStr := stepHist row.psnHistStr pRes
      ultima := date }

/-- The whole per-game loop: every row is processed, each from its own
results. -/
def runScraperRows (date : Str)
    (games : List (GameRow × ScrapeResult × ScrapeResult)) : List GameRow :=
  games.map (fun g => processRow date g.1 g.2.1 g.2.2)

/-! ### The aggregator `GamePriceAggregator` -/

/-- `GamePriceAggregator.IGNORE_KEYWORDS`
(src/services/price_tracker_service.py, lines 170-174). -/
def IGNORE_KEYWORDS : List Str :=
  ["moeda".toList, "pacote de".toList, "stubs".toList, "créditos".toList,
   "coins".toList, "points".toList, "vc".toList, "bundle".toList, "dlc".toList,
   "passe de temporada".toList, "season pass".toList, "expansão".toList,
   "upgrade".toList, "demo".toList, "beta".toList, "soundtrack".toList,
   "artbook".toList, "trilha sonora".toList]

/-- `GamePriceAggregator.SIMILARITY_THRESHOLD` (value 85). -/
def GamePriceAggregator.SIMILARITY_THRESHOLD : ℕ := 85

def edicaoTok : Str := "edição".toList

/-- `GamePriceAggregator._is_relevant`
(src/services/price_tracker_service.py, lines 181-196); the fuzzy scorer
`fuzz.token_sort_ratio` is an external library, abstracted as `sim`. -/
def isRelevant (sim : Str → Str → ℕ) (title : Option Str) (originalGameName : Str) :
    Bool :=
  match title with
  | none => false
  | some t =>
    if t = [] then false
    else
      let lowerTitle := pyLower t
      if IGNORE_KEYWORDS.any (fun kw => containsSub kw lowerTitle) then false
      else if containsSub edicaoTok lowerTitle = true
          ∧ containsSub edicaoTok (pyLower originalGameName) = false
          ∧ sim (pyLower originalGameName) lowerTitle
              < GamePriceAggregator.SIMILARITY_THRESHOLD then false
      else true

/-- The similarity the aggregator computes for one candidate. -/
def simScore (sim : Str → Str → ℕ) (gameName : Str) (r : QuoteResult) : ℕ :=
  sim (pyLower gameName) (pyLower (r.title.getD []))

/-- The four selection variables of `get_best_match_for_game`. -/
structure AggState where
  bestSteam : Option QuoteResult
  hiSteam : ℕ
  bestPsn : Option QuoteResult
  hiPsn : ℕ

/-- The Steam `if` of the candidate loop in `get_best_match_for_game`
(src/services/price_tracker_service.py, lines 220-222). -/
def aggStepSteam (sim : Str → Str → ℕ) (gameName : Str) (st : AggState)
    (r : QuoteResult) : AggState :=
  if r.platform = Platform.steam ∧ st.hiSteam < simScore sim gameName r then
    { st with bestSteam := some r, hiSteam := simScore sim gameName r }
  else st

/-- The PSN `if` of the candidate loop (lines 224-226). -/
def aggStepPsn (sim : Str → Str → ℕ) (gameName : Str) (st : AggState)
    (r : QuoteResult) : AggState :=
  if r.platform = Platform.psn ∧ st.hiPsn < simScore sim gameName r then
    { st with bestPsn := some r, hiPsn := simScore sim gameName r }
  else st

/-- One iteration of the candidate loop in `get_best_match_for_game`
(src/services/price_tracker_service.py, lines 214-226): skip non-found or
irrelevant results, then run the two platform updates in sequence. -/
def aggStep (sim : Str → Str → ℕ) (gameName : Str) (st : AggState) (r : QuoteResult) :
    AggState :=
  if r.found = false ∨ isRelevant sim r.title gameName = false then st
  else aggStepPsn sim gameName (aggStepSteam sim gameName st r) r

/-- `GamePriceAggregator.get_best_match_for_game`
(src/services/price_tracker_service.py, lines 198-236): fold the candidate
loop over `steam_results + psn_results`, then keep each platform's best
candidate only when its similarity reaches the threshold. -/
def getBestMatchForGame (sim : Str → Str → ℕ) (gameName : Str)
    (steamResults psnResults : List QuoteResult) :
    Option QuoteResult × Option QuoteResult :=
  let allResults := steamResults ++ psnResults
  let st := allResults.foldl (aggStep sim gameName) ⟨none, 0, none, 0⟩
  (if st.bestSteam.isSome
      ∧ GamePriceAggregator.SIMILARITY_THRESHOLD ≤ st.hiSteam then st.bestSteam
   else none,
   if st.bestPsn.isSome
      ∧ GamePriceAggregator.SIMILARITY_THRESHOLD ≤ st.hiPsn then st.bestPsn
   else none)

/-- A candidate that survives the aggregator's filters for platform `p`. -/
def keptCand (sim : Str → Str → ℕ) (gameName : Str) (p : Platform) (r : QuoteResult) :
    Prop :=
  r.found = true ∧ isRelevant sim r.title gameName = true ∧ r.platform = p

/-- Platform-indexed view of the selection variables. -/
def stBest (p : Platform) (st : AggState) : Option QuoteResult :=
  match p with
  | Platform.steam => st.bestSteam
  | Platform.psn => st.bestPsn

def stHi (p : Platform) (st : AggState) : ℕ :=
  match p with
  | Platform.steam => st.hiSteam
  | Platform.psn => st.hiPsn

/-- Platform-indexed view of the result pair. -/
def bestOf (p : Platform) (res : Option QuoteResult × Option QuoteResult) :
    Option QuoteResult :=
  match p with
  | Platform.steam => res.1
  | Platform.psn => res.2

/-- Loop invariant of the candidate fold. -/
def AggInv (sim : Str → Str → ℕ) (gameName : Str) (p : Platform)
    (processed : List QuoteResult) (st : AggState) : Prop :=
  (stBest p st = none → stHi p st = 0)
  ∧ (∀ c, stBest p st = some c →
      keptCand sim gameName p c ∧ c ∈ processed ∧ stHi p st = simScore sim gameName c)
  ∧ (∀ c ∈ processed, keptCand sim gameName p c → simScore sim gameName c ≤ stHi p st)

/-! ### Notifications and the promotion evaluation -/

/-- A row of the `Notificações` sheet; the stored timestamp string is
modelled by the epoch second it encodes (`strftime`/`strptime`
round-trip). -/
structure Notif where
  tipo : Str
  mensagem : Str
  dataSec : ℤ
deriving DecidableEq

def promocaoTok : Str := "Promoção".toList

/-- The `latest_promotion_date` fold of `_add_notification`
(src/services/game_service.py, lines 180-187). -/
def latestDateAux : Option ℤ → List Notif → Option ℤ
  | acc, [] => acc
  | acc, n :: rest =>
    latestDateAux
      (match acc with
       | none => some n.dataSec
       | some x => if x < n.dataSec then some n.dataSec else some x)
      rest

/-- `_add_notification` (src/services/game_service.py, lines 155-212):
for a promotion with a game name, suppress when some prior promotion
notification whose message contains the game name is less than 30 days
old (`timedelta.days`, floor division); otherwise append.  Other types
deduplicate on exact (type, message). -/
def addNotification (notifs : List Notif) (tipo msg : Str) (gameName : Option Str)
    (now : ℤ) : List Notif × Bool :=
  match gameName with
  | some g =>
    if tipo = promocaoTok ∧ ¬ g = [] then
      let existing := notifs.filter
        (fun n => decide (n.tipo = promocaoTok) && containsSub g n.mensagem)
      if existing = [] then (notifs ++ [⟨tipo, msg, now⟩], true)
      else
        match latestDateAux none existing with
        | some latest =>
          if Int.fdiv (now - latest) 86400 < 30 then (notifs, false)
          else (notifs ++ [⟨tipo, msg, now⟩], true)
        | none => (notifs ++ [⟨tipo, msg, now⟩], true)
    else
      if notifs.any (fun n => decide (n.tipo = tipo) && decide (n.mensagem = msg)) then
        (notifs, false)
      else (notifs ++ [⟨tipo, msg, now⟩], true)
  | none =>
    if notifs.any (fun n => decide (n.tipo = tipo) && decide (n.mensagem = msg)) then
      (notifs, false)
    else (notifs ++ [⟨tipo, msg, now⟩], true)

/-- A processed wishlist row in `get_all_game_data`
(src/services/game_service.py): price cells after `safe_float_conversion`
(numeric, `0.0` on failure) and the parsed `Ultima Atualizacao` timestamp
(`none` when unparseable). -/
structure Wish where
  steamCur : ℚ
  steamLow : ℚ
  psnCur : ℚ
  psnLow : ℚ
  lastUpdate : Option ℤ

/-- The promotion notifications attempted for one wishlist row in one run
of `get_all_game_data` (src/services/game_service.py, lines 424-460):
rows without a parseable update time are skipped; rows updated more than
24 hours ago are skipped; Steam fires when `0 < cur ≤ 1.01 × low`; PSN
fires under its own such condition only when Steam did not
(`promotion_found`). -/
def promoEmissions (now : ℤ) (w : Wish) : List (Platform × ℚ) :=
  match w.lastUpdate with
  | none => []
  | some lu =>
    if ((now - lu : ℤ) : ℚ) / 3600 ≤ 24 then
      (if w.steamCur > 0 ∧ w.steamCur ≤ w.steamLow * (101 / 100)
       then [(Platform.steam, w.steamCur)] else [])
      ++ (if (w.psnCur > 0 ∧ w.psnCur ≤ w.psnLow * (101 / 100))
            ∧ ¬ (w.steamCur > 0 ∧ w.steamCur ≤ w.steamLow * (101 / 100))
          then [(Platform.psn, w.psnCur)] else [])
    else []

/-- Modelled from the spec (the source has no such rule): Rule A of §4.6 —
the mean of the platform's history records over the trailing 30 days, and
the fire condition `CurrentPrice ≤ 0.80 × mean`. -/
def specRuleA (now : ℤ) (history : List (ℤ × ℚ)) (cur : ℚ) : Prop :=
  let window := history.filter (fun r => decide (now - 2592000 ≤ r.1) && decide (r.1 ≤ now))
  ¬ window = [] ∧ cur ≤ (4 / 5) * ((window.map Prod.snd).sum / window.length)

/-! ### Basic lemmas about the string utilities -/

theorem containsSub_head_mem {c : Char} {ns s : Str} (h : containsSub (c :: ns) s = true) :
    c ∈ s := by
  induction s with
  | nil => simp [containsSub] at h
  | cons d t ih =>
    simp only [containsSub, Bool.or_eq_true] at h
    rcases h with h | h
    · have := List.isPrefixOf_iff_prefix.mp h
      rcases this with ⟨u, hu⟩
      cases hu
      exact List.mem_cons_self _ _
    · exact List.mem_cons_of_mem _ (ih h)

theorem dropWhile_of_all_neg {p : Char → Bool} {s : Str}
    (h : ∀ c ∈ s, p c = false) : s.dropWhile p = s := by
  cases s with
  | nil => rfl
  | cons c t =>
    have hc := h c (List.mem_cons_self _ _)
    simp [List.dropWhile, hc]

theorem pyStrip_of_all {s : Str} (h : ∀ c ∈ s, isPySpace c = false) : pyStrip s = s := by
  unfold pyStrip
  rw [dropWhile_of_all_neg h, dropWhile_of_all_neg, List.reverse_reverse]
  intro c hc
  exact h c (List.mem_reverse.mp hc)

theorem pyStrip_subset {s : Str} {c : Char} (h : c ∈ pyStrip s) : c ∈ s := by
  unfold pyStrip at h
  rw [List.mem_reverse] at h
  have h1 := (List.dropWhile_sublist (l := (s.dropWhile isPySpace).reverse)
    (p := isPySpace)).subset h
  rw [List.mem_reverse] at h1
  exact (List.dropWhile_sublist (l := s) (p := isPySpace)).subset h1

theorem pyLower_mem {s : Str} {c : Char} (h : c ∈ pyLower s) :
    ∃ c₀ ∈ s, c = pyLowerChar c₀ := by
  rcases List.mem_map.mp h with ⟨c₀, hc₀, rfl⟩
  exact ⟨c₀, hc₀, rfl⟩

theorem pyReplace_not_mem {p : Char} {ps new s : Str} (h : p ∉ s) :
    pyReplace p ps new s = s := by
  unfold pyReplace
  induction s with
  | nil => rfl
  | cons c t ih =>
    have hcp : ¬ c = p := fun hc => h (hc ▸ List.mem_cons_self _ _)
    have ht : p ∉ t := fun hm => h (List.mem_cons_of_mem _ hm)
    simp only [pyReplaceAux, hcp, false_and, if_false]
    exact congrArg (c :: ·) (ih ht)

theorem pyReplace_del {p : Char} {s : Str} :
    pyReplace p [] [] s = s.filter (fun c => ¬ c = p) := by
  unfold pyReplace
  induction s with
  | nil => rfl
  | cons c t ih =>
    by_cases hc : c = p
    · simp [pyReplaceAux, hc, List.filter, ih]
    · simp [pyReplaceAux, hc, List.filter, ih]

theorem pyReplace_subst {p q : Char} {s : Str} :
    pyReplace p [] [q] s = s.map (fun c => if c = p then q else c) := by
  unfold pyReplace
  induction s with
  | nil => rfl
  | cons c t ih =>
    by_cases hc : c = p
    · simp [pyReplaceAux, hc, ih]
    · simp [pyReplaceAux, hc, ih]

theorem takeWhile_of_all {p : Char → Bool} {s : Str}
    (h : ∀ c ∈ s, p c = true) : s.takeWhile p = s := by
  induction s with
  | nil => rfl
  | cons c t ih =>
    have hc := h c (List.mem_cons_self _ _)
    simp only [List.takeWhile, hc]
    exact congrArg (c :: ·) (ih fun d hd => h d (List.mem_cons_of_mem _ hd))

theorem splitFirstDot_no_dot {s : Str} (h : '.' ∉ s) : splitFirstDot s = (s, none) := by
  induction s with
  | nil => rfl
  | cons c t ih =>
    have hc : ¬ c = '.' := fun hc => h (hc ▸ List.mem_cons_self _ _)
    have ht : '.' ∉ t := fun hm => h (List.mem_cons_of_mem _ hm)
    simp [splitFirstDot, hc, ih ht]

theorem splitFirstDot_append {a b : Str} (h : '.' ∉ a) :
    splitFirstDot (a ++ '.' :: b) = (a, some b) := by
  induction a with
  | nil => simp [splitFirstDot]
  | cons c t ih =>
    have hc : ¬ c = '.' := fun hc => h (hc ▸ List.mem_cons_self _ _)
    have ht : '.' ∉ t := fun hm => h (List.mem_cons_of_mem _ hm)
    simp [splitFirstDot, hc, ih ht]

/-! ### Digit strings -/

theorem isDigitChar_toNat {c : Char} (h : isDigitChar c = true) :
    48 ≤ c.toNat ∧ c.toNat ≤ 57 := by
  simp only [isDigitChar, decide_eq_true_eq] at h
  obtain ⟨h1, h2⟩ := h
  exact ⟨h1, h2⟩

theorem isDigitChar_not_space {c : Char} (h : isDigitChar c = true) :
    isPySpace c = false := by
  simp only [isPySpace, decide_eq_false_iff_not]
  intro hc
  rcases hc with hc | hc | hc | hc | hc | hc <;>
    (subst hc; exact absurd h (by decide))

theorem pyLowerChar_digit {c : Char} (h : isDigitChar c = true) : pyLowerChar c = c := by
  obtain ⟨_, h2⟩ := isDigitChar_toNat h
  have hn : ¬ (65 ≤ c.toNat ∧ c.toNat ≤ 90) := by omega
  simp [pyLowerChar, hn]

theorem isDigitChar_ne_dot {c : Char} (h : isDigitChar c = true) : ¬ c = '.' := by
  intro hc; subst hc; exact absurd h (by decide)

theorem isDigitChar_ne_comma {c : Char} (h : isDigitChar c = true) : ¬ c = ',' := by
  intro hc; subst hc; exact absurd h (by decide)

theorem digitsVal_append (l : Str) (c : Char) :
    digitsVal (l ++ [c]) = 10 * digitsVal l + (c.toNat - 48) := by
  simp [digitsVal, List.foldl_append]

theorem digitsVal_ofDigits {L : List ℕ} (h : ∀ d ∈ L, d < 10) :
    digitsVal (L.reverse.map (fun d => Char.ofNat (48 + d))) = Nat.ofDigits 10 L := by
  induction L with
  | nil => rfl
  | cons x t ih =>
    have hx : x < 10 := h x (List.mem_cons_self _ _)
    have ht : ∀ d ∈ t, d < 10 := fun d hd => h d (List.mem_cons_of_mem _ hd)
    have hchar : (Char.ofNat (48 + x)).toNat - 48 = x := by
      interval_cases x <;> rfl
    simp only [List.reverse_cons, List.map_append, List.map_cons, List.map_nil,
      digitsVal_append, ih ht, Nat.ofDigits_cons, hchar]
    ring

theorem natToChars_val (n : ℕ) : digitsVal (natToChars n) = n := by
  unfold natToChars
  rw [digitsVal_ofDigits (fun d hd => Nat.digits_lt_base (by norm_num) hd)]
  exact Nat.ofDigits_digits 10 n

theorem natToChars_digits {n : ℕ} {c : Char} (h : c ∈ natToChars n) :
    isDigitChar c = true := by
  unfold natToChars at h
  rcases List.mem_map.mp h with ⟨d, hd, rfl⟩
  have : d < 10 := Nat.digits_lt_base (by norm_num) (List.mem_reverse.mp hd)
  interval_cases d <;> rfl

theorem digitsVal_from_lt {l : Str} (h : ∀ c ∈ l, isDigitChar c = true) (a : ℕ) :
    l.foldl (fun a c => 10 * a + (c.toNat - 48)) a < (a + 1) * 10 ^ l.length := by
  induction l generalizing a with
  | nil => simp
  | cons c t ih =>
    have hc := isDigitChar_toNat (h c (List.mem_cons_self _ _))
    have ht := ih (fun d hd => h d (List.mem_cons_of_mem _ hd)) (10 * a + (c.toNat - 48))
    simp only [List.foldl_cons, List.length_cons]
    calc List.foldl (fun a c => 10 * a + (c.toNat - 48)) (10 * a + (c.toNat - 48)) t
        < (10 * a + (c.toNat - 48) + 1) * 10 ^ t.length := ht
      _ ≤ (a + 1) * 10 ^ (t.length + 1) := by
          have : 10 * a + (c.toNat - 48) + 1 ≤ (a + 1) * 10 := by omega
          calc (10 * a + (c.toNat - 48) + 1) * 10 ^ t.length
              ≤ ((a + 1) * 10) * 10 ^ t.length := Nat.mul_le_mul_right _ this
            _ = (a + 1) * 10 ^ (t.length + 1) := by ring

theorem digitsVal_lt {l : Str} (h : ∀ c ∈ l, isDigitChar c = true) :
    digitsVal l < 10 ^ l.length := by
  have := digitsVal_from_lt h 0
  simpa [digitsVal] using this

/-- Faithfulness of `decCeil`: it is `math.ceil` of `a` plus the fraction
written by the digit string `b`. -/
theorem decCeil_eq_ceil {a : ℕ} {b : Str} (hb : ∀ c ∈ b, isDigitChar c = true) :
    (decCeil a b : ℤ) = ⌈(a : ℚ) + (digitsVal b : ℚ) / 10 ^ b.length⌉ := by
  unfold decCeil
  by_cases h0 : digitsVal b = 0
  · simp [h0]
  · have hlt : (digitsVal b : ℚ) < 10 ^ b.length := by
      exact_mod_cast digitsVal_lt hb
    have hpow : (0 : ℚ) < 10 ^ b.length := by positivity
    have hpos : (0 : ℚ) < (digitsVal b : ℚ) := by
      exact_mod_cast Nat.pos_of_ne_zero h0
    have hfrac1 : (digitsVal b : ℚ) / 10 ^ b.length < 1 := by
      rw [div_lt_one hpow]; exact hlt
    have hfrac0 : (0 : ℚ) < (digitsVal b : ℚ) / 10 ^ b.length := by positivity
    rw [if_neg h0]
    symm
    rw [Int.ceil_eq_iff]
    constructor
    · push_cast
      linarith
    · push_cast
      linarith

/-! ### Round-trip between the parser and the formatter -/

theorem containsSub_false_of_head {c0 : Char} {tk s : Str} (h : c0 ∉ s) :
    containsSub (c0 :: tk) s = false := by
  cases hcs : containsSub (c0 :: tk) s
  · rfl
  · exact absurd (containsSub_head_mem hcs) h

theorem not_mem_of_digits {s : Str} (hs : ∀ c ∈ s, isDigitChar c = true)
    {c0 : Char} (hc0 : isDigitChar c0 = false) : c0 ∉ s := by
  intro hm
  rw [hs c0 hm] at hc0
  cases hc0

theorem pyLower_of_digits {s : Str} (hs : ∀ c ∈ s, isDigitChar c = true) :
    pyLower s = s := by
  induction s with
  | nil => rfl
  | cons c t ih =>
    simp only [pyLower, List.map_cons]
    rw [pyLowerChar_digit (hs c (List.mem_cons_self _ _))]
    exact congrArg (c :: ·) (ih fun d hd => hs d (List.mem_cons_of_mem _ hd))

theorem cleanPriceToFloat_digits {s : Str} (hs : ∀ c ∈ s, isDigitChar c = true)
    (hne : s ≠ []) : cleanPriceToFloat s = ((digitsVal s : ℕ) : WithTop ℕ) := by
  have hstrip : pyStrip (pyLower s) = s := by
    rw [pyLower_of_digits hs]
    exact pyStrip_of_all fun c hc => isDigitChar_not_space (hs c hc)
  have hg : containsSub gratuitoTok (pyStrip (pyLower s)) = false := by
    rw [hstrip]
    exact containsSub_false_of_head (not_mem_of_digits hs (by decide))
  have hf : containsSub freeTok (pyStrip (pyLower s)) = false := by
    rw [hstrip]
    exact containsSub_false_of_head (not_mem_of_digits hs (by decide))
  have hg2 : containsSub gratisTok (pyStrip (pyLower s)) = false := by
    rw [hstrip]
    exact containsSub_false_of_head (not_mem_of_digits hs (by decide))
  have hn : containsSub naoEncontradoTok (pyStrip (pyLower s)) = false := by
    rw [hstrip]
    exact containsSub_false_of_head (not_mem_of_digits hs (by decide))
  have hp : containsSub precoIndisponivelTok (pyStrip (pyLower s)) = false := by
    rw [hstrip]
    exact containsSub_false_of_head (not_mem_of_digits hs (by decide))
  have hr : pyReplace 'r' ['$'] [] s = s :=
    pyReplace_not_mem (not_mem_of_digits hs (by decide))
  have hdot : pyReplace '.' [] [] s = s := by
    rw [pyReplace_not_mem (not_mem_of_digits hs (by decide))]
  have hcomma : pyReplace ',' [] ['.'] s = s := by
    rw [pyReplace_not_mem (not_mem_of_digits hs (by decide))]
  have hstrip2 : pyStrip s = s :=
    pyStrip_of_all fun c hc => isDigitChar_not_space (hs c hc)
  obtain ⟨d, t, rfl⟩ : ∃ d t, s = d :: t := by
    cases s with
    | nil => exact absurd rfl hne
    | cons d t => exact ⟨d, t, rfl⟩
  have hspan : findNumSpan (d :: t) = some (d :: t) := by
    have hd := hs d (List.mem_cons_self _ _)
    simp only [findNumSpan, hd, if_true]
    rw [takeWhile_of_all]
    intro c hc
    simp [hs c (List.mem_cons_of_mem _ hc)]
  have hsplit : splitFirstDot (d :: t) = (d :: t, none) :=
    splitFirstDot_no_dot (not_mem_of_digits hs (by decide))
  unfold cleanPriceToFloat
  simp only [hg, hf, hg2, hn, hp, Bool.or_self, Bool.or_false, Bool.false_or,
    if_false, Bool.false_eq_true, hr, hdot, hcomma, hstrip2, hspan, parseDecimal, hsplit]
  simp [decCeil, digitsVal]

/-- Parsing a formatted price gives back the price: the stored price
strings round-trip exactly through `clean_price_to_float`. -/
theorem cleanPriceToFloat_format (p : WithTop ℕ) :
    cleanPriceToFloat (formatFloatToPriceStr p) = p := by
  by_cases h0 : p = (0 : ℕ)
  · subst h0
    decide
  · cases p with
    | top =>
      unfold formatFloatToPriceStr
      rw [if_neg h0]
      decide
    | coe n =>
      have hn : n ≠ 0 := fun hn0 => h0 (by simp [hn0])
      unfold formatFloatToPriceStr
      rw [if_neg h0]
      have hne : natToChars n ≠ [] := by
        unfold natToChars
        simp only [ne_eq, List.map_eq_nil_iff, List.reverse_eq_nil_iff]
        exact Nat.digits_ne_nil_iff_ne_zero.mpr hn
      rw [cleanPriceToFloat_digits (fun c hc => natToChars_digits hc) hne,
        natToChars_val]
      norm_cast


/-! ### Parsing of well-formed locale price strings -/

theorem mapIdOfMem {f : Char → Char} {l : Str} (h : ∀ c ∈ l, f c = c) :
    l.map f = l := by
  induction l with
  | nil => rfl
  | cons c t ih =>
    simp only [List.map_cons]
    rw [h c (List.mem_cons_self _ _)]
    exact congrArg (c :: ·) (ih fun d hd => h d (List.mem_cons_of_mem _ hd))

theorem renderLocale_mem {ip : Str} {f1 f2 c : Char}
    (hip : ∀ c ∈ ip, isDigitChar c = true ∨ c = '.')
    (h1 : isDigitChar f1 = true) (h2 : isDigitChar f2 = true)
    (hc : c ∈ renderLocale ip f1 f2) :
    c = 'R' ∨ c = '$' ∨ c = ' ' ∨ isDigitChar c = true ∨ c = '.' ∨ c = ',' := by
  unfold renderLocale at hc
  simp only [List.mem_cons, List.mem_append, List.mem_singleton] at hc
  rcases hc with rfl | rfl | rfl | hc | rfl | rfl | rfl | hx
  · exact Or.inl rfl
  · exact Or.inr (Or.inl rfl)
  · exact Or.inr (Or.inr (Or.inl rfl))
  · rcases hip c hc with h | h
    · exact Or.inr (Or.inr (Or.inr (Or.inl h)))
    · exact Or.inr (Or.inr (Or.inr (Or.inr (Or.inl h))))
  · exact Or.inr (Or.inr (Or.inr (Or.inr (Or.inr rfl))))
  · exact Or.inr (Or.inr (Or.inr (Or.inl h1)))
  · exact Or.inr (Or.inr (Or.inr (Or.inl h2)))
  · exact absurd hx (List.not_mem_nil c)

theorem filter_renderLocale {ip : Str} {f1 f2 : Char}
    (h1 : isDigitChar f1 = true) (h2 : isDigitChar f2 = true) :
    (renderLocale ip f1 f2).filter (fun c => ¬ c = '.')
      = 'R' :: '$' :: ' ' :: (ip.filter (fun c => ¬ c = '.') ++ ',' :: [f1, f2]) := by
  unfold renderLocale
  rw [List.filter_cons, List.filter_cons, List.filter_cons, List.filter_append,
    List.filter_cons, List.filter_cons, List.filter_cons]
  simp [isDigitChar_ne_dot h1, isDigitChar_ne_dot h2]

theorem subst_renderFiltered {ipD : Str} {f1 f2 : Char}
    (hipD : ∀ c ∈ ipD, isDigitChar c = true)
    (h1 : isDigitChar f1 = true) (h2 : isDigitChar f2 = true) :
    pyReplace ',' [] ['.'] ('R' :: '$' :: ' ' :: (ipD ++ ',' :: [f1, f2]))
      = 'R' :: '$' :: ' ' :: (ipD ++ '.' :: [f1, f2]) := by
  rw [pyReplace_subst]
  simp only [List.map_cons, List.map_append]
  rw [mapIdOfMem (fun c hc => by simp [isDigitChar_ne_comma (hipD c hc)])]
  simp [isDigitChar_ne_comma h1, isDigitChar_ne_comma h2]

theorem strip_cleanedLocale {ipD : Str} {f1 f2 : Char}
    (h2 : isDigitChar f2 = true) :
    pyStrip ('R' :: '$' :: ' ' :: (ipD ++ '.' :: [f1, f2]))
      = 'R' :: '$' :: ' ' :: (ipD ++ '.' :: [f1, f2]) := by
  unfold pyStrip
  have hR : isPySpace 'R' = false := by decide
  have hf2 : isPySpace f2 = false := isDigitChar_not_space h2
  rw [List.dropWhile_cons_of_neg (by simp [hR])]
  have hrev : ('R' :: '$' :: ' ' :: (ipD ++ '.' :: [f1, f2])).reverse
      = f2 :: (f1 :: '.' :: ipD.reverse ++ [' ', '$', 'R']) := by
    simp
  rw [hrev, List.dropWhile_cons_of_neg (by simp [hf2]), ← hrev, List.reverse_reverse]

theorem findNumSpan_cleanedLocale {ipD : Str} {f1 f2 : Char}
    (hipD : ∀ c ∈ ipD, isDigitChar c = true) (hne : ipD ≠ [])
    (h1 : isDigitChar f1 = true) (h2 : isDigitChar f2 = true) :
    findNumSpan ('R' :: '$' :: ' ' :: (ipD ++ '.' :: [f1, f2]))
      = some (ipD ++ '.' :: [f1, f2]) := by
  obtain ⟨e, u, rfl⟩ : ∃ e u, ipD = e :: u := by
    cases ipD with
    | nil => exact absurd rfl hne
    | cons e u => exact ⟨e, u, rfl⟩
  have hed : isDigitChar e = true := hipD e (List.mem_cons_self _ _)
  simp only [findNumSpan]
  rw [if_neg (by decide), if_neg (by decide), if_neg (by decide), List.cons_append]
  simp only [findNumSpan, hed, if_true]
  have htw : List.takeWhile (fun d => isDigitChar d ∨ d = '.') (u ++ '.' :: [f1, f2])
      = u ++ '.' :: [f1, f2] := by
    refine takeWhile_of_all ?_
    intro c hc
    rcases List.mem_append.mp hc with hc | hc
    · simp [hipD c (List.mem_cons_of_mem _ hc)]
    · simp only [List.mem_cons, List.mem_singleton] at hc
      rcases hc with rfl | rfl | rfl | hx
      · simp
      · simp [h1]
      · simp [h2]
      · exact absurd hx (List.not_mem_nil c)
  simp only [List.append_eq, htw]

theorem renderLocale_no_token {ip : Str} {f1 f2 c0 : Char} {tk : Str}
    (hip : ∀ c ∈ ip, isDigitChar c = true ∨ c = '.')
    (h1 : isDigitChar f1 = true) (h2 : isDigitChar f2 = true)
    (hc0 : (c0 = 'r' ∨ c0 = '$' ∨ c0 = ' ' ∨ isDigitChar c0 = true ∨ c0 = '.' ∨ c0 = ',')
      → False) :
    containsSub (c0 :: tk) (pyStrip (pyLower (renderLocale ip f1 f2))) = false := by
  refine containsSub_false_of_head ?_
  intro hm
  rcases pyLower_mem (pyStrip_subset hm) with ⟨c₁, hc₁, rfl⟩
  rcases renderLocale_mem hip h1 h2 hc₁ with h | h | h | h | h | h
  · exact hc0 (by subst h; exact Or.inl (by decide))
  · exact hc0 (by subst h; exact Or.inr (Or.inl (by decide)))
  · exact hc0 (by subst h; exact Or.inr (Or.inr (Or.inl (by decide))))
  · exact hc0 (by rw [pyLowerChar_digit h]; exact Or.inr (Or.inr (Or.inr (Or.inl h))))
  · exact hc0 (by subst h; exact Or.inr (Or.inr (Or.inr (Or.inr (Or.inl (by decide))))))
  · exact hc0 (by subst h; exact Or.inr (Or.inr (Or.inr (Or.inr (Or.inr (by decide))))))

theorem cleanPriceToFloat_renderLocale {ip : Str} {f1 f2 : Char}
    (hip : ipOk ip) (h1 : isDigitChar f1 = true) (h2 : isDigitChar f2 = true) :
    cleanPriceToFloat (renderLocale ip f1 f2)
      = ((decCeil (digitsVal (ip.filter (fun c => ¬ c = '.'))) [f1, f2] : ℕ) : WithTop ℕ)
    ∧ (decCeil (digitsVal (ip.filter (fun c => ¬ c = '.'))) [f1, f2] : ℤ)
      = ⌈localeVal ip f1 f2⌉ := by
  obtain ⟨hmem, d, t, rfl, hd⟩ := hip
  have hipD_digits : ∀ c ∈ (d :: t).filter (fun c => ¬ c = '.'), isDigitChar c = true := by
    intro c hc
    have hc' := List.of_mem_filter hc
    have hcm := List.mem_of_mem_filter hc
    rcases hmem c hcm with h | h
    · exact h
    · simp [h] at hc'
  constructor
  · have hg : containsSub gratuitoTok (pyStrip (pyLower (renderLocale (d :: t) f1 f2)))
        = false := by
      refine renderLocale_no_token hmem h1 h2 ?_
      rintro (h | h | h | h | h | h) <;> cases h
    have hf : containsSub freeTok (pyStrip (pyLower (renderLocale (d :: t) f1 f2)))
        = false := by
      refine renderLocale_no_token hmem h1 h2 ?_
      rintro (h | h | h | h | h | h) <;> cases h
    have hg2 : containsSub gratisTok (pyStrip (pyLower (renderLocale (d :: t) f1 f2)))
        = false := by
      refine renderLocale_no_token hmem h1 h2 ?_
      rintro (h | h | h | h | h | h) <;> cases h
    have hn : containsSub naoEncontradoTok
        (pyStrip (pyLower (renderLocale (d :: t) f1 f2))) = false := by
      refine renderLocale_no_token hmem h1 h2 ?_
      rintro (h | h | h | h | h | h) <;> cases h
    have hp : containsSub precoIndisponivelTok
        (pyStrip (pyLower (renderLocale (d :: t) f1 f2))) = false := by
      refine renderLocale_no_token hmem h1 h2 ?_
      rintro (h | h | h | h | h | h) <;> cases h
    have hr : pyReplace 'r' ['$'] [] (renderLocale (d :: t) f1 f2)
        = renderLocale (d :: t) f1 f2 := by
      refine pyReplace_not_mem ?_
      intro hm
      rcases renderLocale_mem hmem h1 h2 hm with h | h | h | h | h | h <;> cases h
    have hdot : pyReplace '.' [] [] (renderLocale (d :: t) f1 f2)
        = 'R' :: '$' :: ' ' :: ((d :: t).filter (fun c => ¬ c = '.') ++ ',' :: [f1, f2]) := by
      rw [pyReplace_del]
      exact filter_renderLocale h1 h2
    have hcomma := subst_renderFiltered hipD_digits h1 h2
    have hstrip2 := @strip_cleanedLocale ((d :: t).filter (fun c => ¬ c = '.')) f1 f2 h2
    have hneD : (d :: t).filter (fun c => ¬ c = '.') ≠ [] := by
      intro hnil
      have hdmem : d ∈ (d :: t).filter (fun c => ¬ c = '.') := by
        refine List.mem_filter.mpr ⟨List.mem_cons_self _ _, ?_⟩
        simp [isDigitChar_ne_dot hd]
      rw [hnil] at hdmem
      exact List.not_mem_nil d hdmem
    have hspan := findNumSpan_cleanedLocale hipD_digits hneD h1 h2
    have hsplit : splitFirstDot ((d :: t).filter (fun c => ¬ c = '.') ++ '.' :: [f1, f2])
        = ((d :: t).filter (fun c => ¬ c = '.'), some [f1, f2]) := by
      refine splitFirstDot_append ?_
      exact fun hm => (isDigitChar_ne_dot (hipD_digits '.' hm)) rfl
    have hparse : parseDecimal ((d :: t).filter (fun c => ¬ c = '.') ++ '.' :: [f1, f2])
        = some (digitsVal ((d :: t).filter (fun c => ¬ c = '.')), [f1, f2]) := by
      unfold parseDecimal
      rw [hsplit]
      have hno : '.' ∉ [f1, f2] := by
        intro hm
        simp only [List.mem_cons, List.mem_singleton] at hm
        rcases hm with hm | hm | hm
        · exact (isDigitChar_ne_dot h1) hm.symm
        · exact (isDigitChar_ne_dot h2) hm.symm
        · exact List.not_mem_nil '.' hm
      simp [hno]
    unfold cleanPriceToFloat
    simp only [hg, hf, hg2, hn, hp, Bool.or_self, Bool.or_false, Bool.false_or,
      Bool.false_eq_true, if_false, hr, hdot, hcomma, hstrip2, hspan, hparse]
  · have hfr : ∀ c ∈ [f1, f2], isDigitChar c = true := by
      intro c hc
      simp only [List.mem_cons, List.mem_singleton] at hc
      rcases hc with rfl | rfl | hc
      · exact h1
      · exact h2
      · exact absurd hc (List.not_mem_nil c)
    have hcc := decCeil_eq_ceil (a := digitsVal ((d :: t).filter (fun c => ¬ c = '.'))) hfr
    rw [hcc]
    unfold localeVal
    norm_num

/-! ### Claim C5 -/

/-- C5 counterexample: the claim says "the price parser" returns `0` on
text containing "gratuito"; the parser `price_to_float` of
src/services/price_tracker_service.py instead returns the null sentinel
on exactly that input, while `clean_price_to_float` of
src/services/price_scraper_service.py returns `0`.  The two cited parsers
disagree, so the claim as stated is false. -/
theorem c5_counterexample :
    priceToFloat "gratuito".toList = none
    ∧ cleanPriceToFloat "gratuito".toList = ((0 : ℕ) : WithTop ℕ) := by
  constructor
  · decide
  · decide

/-- C5 (amended): the primary parser `clean_price_to_float` returns `0`
when the lowered, stripped text contains "gratuito"/"free"/"grátis";
returns the unavailable sentinel when it contains "não encontrado" or
"preço indisponível" (and no free marker, which takes precedence); and on
a well-formed locale price string returns the ceiling of the denoted
value (`'.'` thousands, `','` decimals, `"R$"` stripped). -/
theorem c5_cleanPriceBehaviour :
    (∀ s : Str,
      (containsSub gratuitoTok (pyStrip (pyLower s)) ||
        containsSub freeTok (pyStrip (pyLower s)) ||
        containsSub gratisTok (pyStrip (pyLower s))) = true →
      cleanPriceToFloat s = ((0 : ℕ) : WithTop ℕ))
    ∧ (∀ s : Str,
      (containsSub gratuitoTok (pyStrip (pyLower s)) ||
        containsSub freeTok (pyStrip (pyLower s)) ||
        containsSub gratisTok (pyStrip (pyLower s))) = false →
      (containsSub naoEncontradoTok (pyStrip (pyLower s)) ||
        containsSub precoIndisponivelTok (pyStrip (pyLower s))) = true →
      cleanPriceToFloat s = ⊤)
    ∧ (∀ (ip : Str) (f1 f2 : Char), ipOk ip →
      isDigitChar f1 = true → isDigitChar f2 = true →
      cleanPriceToFloat (renderLocale ip f1 f2)
        = ((decCeil (digitsVal (ip.filter (fun c => ¬ c = '.'))) [f1, f2] : ℕ) : WithTop ℕ)
      ∧ (decCeil (digitsVal (ip.filter (fun c => ¬ c = '.'))) [f1, f2] : ℤ)
        = ⌈localeVal ip f1 f2⌉) := by
  refine ⟨?_, ?_, ?_⟩
  · intro s hfree
    simp [cleanPriceToFloat, hfree]
  · intro s hfree hnf
    simp [cleanPriceToFloat, hfree, hnf]
  · intro ip f1 f2 hip h1 h2
    exact cleanPriceToFloat_renderLocale hip h1 h2

/-- C5 witness: the amended behaviour at concrete inputs "Gratuito",
"Preço indisponível" and "R$ 1.234,56". -/
theorem c5_witness :
    cleanPriceToFloat "Gratuito".toList = ((0 : ℕ) : WithTop ℕ)
    ∧ cleanPriceToFloat "Preço indisponível".toList = ⊤
    ∧ cleanPriceToFloat (renderLocale "1.234".toList '5' '6')
        = ((1235 : ℕ) : WithTop ℕ) := by
  refine ⟨c5_cleanPriceBehaviour.1 _ (by decide),
    c5_cleanPriceBehaviour.2.1 _ (by decide) (by decide), ?_⟩
  have h := (c5_cleanPriceBehaviour.2.2) "1.234".toList '5' '6'
    ⟨by decide, '1', ".234".toList, by decide, by decide⟩ (by decide) (by decide)
  rw [h.1]
  decide

/-! ### Claim C9 -/

/-- C9: for every well-formed locale price string, formatting the parsed
price yields a string that parses back to the very same number, namely the
ceiling of the value the text denotes; and the formatter maps the
unavailable sentinel to "Não encontrado" and `0` to "0". -/
theorem c9_roundTrip {ip : Str} {f1 f2 : Char} (hip : ipOk ip)
    (h1 : isDigitChar f1 = true) (h2 : isDigitChar f2 = true) :
    cleanPriceToFloat (formatFloatToPriceStr (cleanPriceToFloat (renderLocale ip f1 f2)))
      = cleanPriceToFloat (renderLocale ip f1 f2)
    ∧ cleanPriceToFloat (renderLocale ip f1 f2)
      = ((⌈localeVal ip f1 f2⌉.toNat : ℕ) : WithTop ℕ)
    ∧ formatFloatToPriceStr ⊤ = "Não encontrado".toList
    ∧ formatFloatToPriceStr ((0 : ℕ) : WithTop ℕ) = ['0'] := by
  obtain ⟨ha, hb⟩ := cleanPriceToFloat_renderLocale hip h1 h2
  refine ⟨cleanPriceToFloat_format _, ?_, by decide, by decide⟩
  rw [ha, ← hb]
  simp

/-- C9 witness: the round-trip at the concrete input "R$ 1.234,56". -/
theorem c9_witness :
    cleanPriceToFloat (formatFloatToPriceStr
        (cleanPriceToFloat (renderLocale "1.234".toList '5' '6')))
      = cleanPriceToFloat (renderLocale "1.234".toList '5' '6')
    ∧ cleanPriceToFloat (renderLocale "1.234".toList '5' '6')
      = ((⌈localeVal "1.234".toList '5' '6'⌉.toNat : ℕ) : WithTop ℕ) := by
  have h := @c9_roundTrip "1.234".toList '5' '6'
    ⟨by decide, '1', ".234".toList, by decide, by decide⟩ (by decide) (by decide)
  exact ⟨h.1, h.2.1⟩

/-! ### Claim C7: title normalizer -/

theorem subWordAux_length (k : Char) (ks : Str) :
    ∀ (n : ℕ) (s : Str) (m : ℕ) (pw : Bool), s.length ≤ n →
      (subWordAux k ks m pw s).length ≤ s.length := by
  intro n
  induction n with
  | zero =>
    intro s m pw hs
    have : s = [] := List.length_eq_zero.mp (Nat.le_zero.mp hs)
    subst this
    cases m <;> simp [subWordAux]
  | succ n ih =>
    intro s m pw hs
    cases s with
    | nil => cases m <;> simp [subWordAux]
    | cons c rest =>
      have hrest : rest.length ≤ n := by
        simp only [List.length_cons] at hs
        omega
      cases m with
      | succ m' =>
        calc (subWordAux k ks m' pw rest).length ≤ rest.length := ih rest m' pw hrest
          _ ≤ (c :: rest).length := by simp
      | zero =>
        by_cases hm : pw = false ∧ c = k ∧ ks.isPrefixOf rest ∧ wordBoundaryAfter ks rest = true
        · rw [subWordAux, if_pos hm]
          calc (subWordAux k ks ks.length (isWordChar (ks.getLastD k)) rest).length
              ≤ rest.length := ih rest _ _ hrest
            _ ≤ (c :: rest).length := by simp
        · rw [subWordAux, if_neg hm]
          simp only [List.length_cons, Nat.add_le_add_iff_right]
          exact ih rest 0 _ hrest

theorem subWord_length (kw s : Str) : (subWord kw s).length ≤ s.length := by
  cases kw with
  | nil => simp [subWord]
  | cons k ks => exact subWordAux_length k ks s.length s 0 false le_rfl

theorem findCloseLen_le (cl : Char) :
    ∀ s : Str, ∀ m, findCloseLen cl s = some m → m ≤ s.length := by
  intro s
  induction s with
  | nil => intro m h; cases h
  | cons c rest ih =>
    intro m h
    simp only [findCloseLen] at h
    by_cases hc : c = cl
    · rw [if_pos hc] at h
      cases h
      simp
    · rw [if_neg hc] at h
      by_cases hn : c = '\n'
      · rw [if_pos hn] at h; cases h
      · rw [if_neg hn] at h
        rcases Option.map_eq_some'.mp h with ⟨m', hm', rfl⟩
        have := ih m' hm'
        simp only [List.length_cons]
        omega

theorem subPairAux_length (oc cl : Char) :
    ∀ (n : ℕ) (s : Str) (m : ℕ), s.length ≤ n →
      (subPairAux oc cl m s).length ≤ s.length := by
  intro n
  induction n with
  | zero =>
    intro s m hs
    have : s = [] := List.length_eq_zero.mp (Nat.le_zero.mp hs)
    subst this
    cases m <;> simp [subPairAux]
  | succ n ih =>
    intro s m hs
    cases s with
    | nil => cases m <;> simp [subPairAux]
    | cons c rest =>
      have hrest : rest.length ≤ n := by
        simp only [List.length_cons] at hs
        omega
      cases m with
      | succ m' =>
        calc (subPairAux oc cl m' rest).length ≤ rest.length := ih rest m' hrest
          _ ≤ (c :: rest).length := by simp
      | zero =>
        by_cases hc : c = oc
        · rw [subPairAux, if_pos hc]
          cases hfc : findCloseLen cl rest with
          | none =>
            simp only [List.length_cons, Nat.add_le_add_iff_right]
            exact ih rest 0 hrest
          | some m2 =>
            calc (subPairAux oc cl m2 rest).length ≤ rest.length := ih rest m2 hrest
              _ ≤ (c :: rest).length := by simp
        · rw [subPairAux, if_neg hc]
          simp only [List.length_cons, Nat.add_le_add_iff_right]
          exact ih rest 0 hrest

theorem subPair_length (oc cl : Char) (s : Str) : (subPair oc cl s).length ≤ s.length :=
  subPairAux_length oc cl s.length s 0 le_rfl

theorem collapseWSAux_length : ∀ (pv : Bool) (s : Str),
    (collapseWSAux pv s).length ≤ s.length := by
  intro pv s
  induction s generalizing pv with
  | nil => simp [collapseWSAux]
  | cons c rest ih =>
    cases hs : isPySpace c with
    | true =>
      cases pv with
      | true =>
        simp only [collapseWSAux, hs]
        have := ih true
        simp only [if_true, List.length_cons]
        omega
      | false =>
        simp only [collapseWSAux, hs]
        have := ih true
        simp only [if_true, Bool.false_eq_true, if_false, List.length_cons]
        omega
    | false =>
      simp only [collapseWSAux, hs, Bool.false_eq_true, if_false, List.length_cons]
      have := ih false
      omega

theorem pyReplaceAux_del_length (p : Char) (ps : Str) :
    ∀ (n : ℕ) (s : Str) (m : ℕ), s.length ≤ n →
      (pyReplaceAux p ps [] m s).length ≤ s.length := by
  intro n
  induction n with
  | zero =>
    intro s m hs
    have : s = [] := List.length_eq_zero.mp (Nat.le_zero.mp hs)
    subst this
    cases m <;> simp [pyReplaceAux]
  | succ n ih =>
    intro s m hs
    cases s with
    | nil => cases m <;> simp [pyReplaceAux]
    | cons c rest =>
      have hrest : rest.length ≤ n := by
        simp only [List.length_cons] at hs
        omega
      cases m with
      | succ m' =>
        calc (pyReplaceAux p ps [] m' rest).length ≤ rest.length := ih rest m' hrest
          _ ≤ (c :: rest).length := by simp
      | zero =>
        by_cases hc : c = p ∧ ps.isPrefixOf rest
        · rw [pyReplaceAux, if_pos hc]
          simp only [List.nil_append]
          calc (pyReplaceAux p ps [] ps.length rest).length ≤ rest.length :=
              ih rest _ hrest
            _ ≤ (c :: rest).length := by simp
        · rw [pyReplaceAux, if_neg hc]
          simp only [List.length_cons, Nat.add_le_add_iff_right]
          exact ih rest 0 hrest

theorem pyStrip_length (s : Str) : (pyStrip s).length ≤ s.length := by
  unfold pyStrip
  calc ((s.dropWhile isPySpace).reverse.dropWhile isPySpace).reverse.length
      = ((s.dropWhile isPySpace).reverse.dropWhile isPySpace).length := by
        rw [List.length_reverse]
    _ ≤ (s.dropWhile isPySpace).reverse.length :=
        (List.dropWhile_sublist _).length_le
    _ = (s.dropWhile isPySpace).length := by rw [List.length_reverse]
    _ ≤ s.length := (List.dropWhile_sublist _).length_le

theorem cleanGameTitle_length (t : Str) : (cleanGameTitle t).length ≤ t.length := by
  unfold cleanGameTitle
  refine le_trans (pyStrip_length _) ?_
  refine le_trans (collapseWSAux_length _ _) ?_
  refine le_trans (subPair_length _ _ _) ?_
  refine le_trans (subPair_length _ _ _) ?_
  refine le_trans (pyReplaceAux_del_length _ _ _ _ _ le_rfl) ?_
  refine le_trans (pyReplaceAux_del_length _ _ _ _ _ le_rfl) ?_
  refine le_trans (subWord_length _ _) ?_
  refine le_trans (subWord_length _ _) ?_
  refine le_trans (subWord_length _ _) ?_
  refine le_trans (subWord_length _ _) ?_
  refine le_trans (subWord_length _ _) ?_
  refine le_trans (subWord_length _ _) ?_
  refine le_trans (subWord_length _ _) ?_
  refine le_trans (subWord_length _ _) ?_
  refine le_trans (subWord_length _ _) ?_
  refine le_trans (subWord_length _ _) ?_
  refine le_trans (subWord_length _ _) ?_
  simp [pyLower]

/-- C7 counterexample: the title normalizer is not idempotent —
normalizing "ps™4" gives "ps4" (the `'™'` substitution runs after the
`\bps4\b` substitution and splices the platform tag together), and a
second pass erases it. -/
theorem c7_counterexample :
    cleanGameTitle "ps™4".toList = "ps4".toList
    ∧ cleanGameTitle (cleanGameTitle "ps™4".toList) = []
    ∧ ¬ cleanGameTitle (cleanGameTitle "ps™4".toList) = cleanGameTitle "ps™4".toList := by
  refine ⟨by decide, by decide, by decide⟩

/-- C7 (amended): the normalizer never raises — it is total and its
output never exceeds its input in length — and the empty title
normalizes to the empty string. -/
theorem c7_normalizerTotal :
    cleanGameTitle [] = []
    ∧ ∀ t : Str, (cleanGameTitle t).length ≤ t.length :=
  ⟨rfl, cleanGameTitle_length⟩

/-! ### Claims C2, C4, C6 -/

theorem stepHist_le (s : Str) (r : ScrapeResult) :
    cleanPriceToFloat (stepHist s r) ≤ cleanPriceToFloat s := by
  unfold stepHist
  by_cases h1 : r.priceFloat < cleanPriceToFloat s
  · rw [if_pos h1, cleanPriceToFloat_format]
    exact le_of_lt h1
  · rw [if_neg h1]
    by_cases h2 : cleanPriceToFloat s = ⊤ ∧ r.found = true
    · rw [if_pos h2, cleanPriceToFloat_format, h2.1]
      exact le_top
    · rw [if_neg h2]

theorem stepHist_le_price (s : Str) (r : ScrapeResult) :
    cleanPriceToFloat (stepHist s r) ≤ r.priceFloat := by
  unfold stepHist
  by_cases h1 : r.priceFloat < cleanPriceToFloat s
  · rw [if_pos h1, cleanPriceToFloat_format]
  · rw [if_neg h1]
    by_cases h2 : cleanPriceToFloat s = ⊤ ∧ r.found = true
    · rw [if_pos h2, cleanPriceToFloat_format]
    · rw [if_neg h2]
      exact not_lt.mp h1

theorem runHist_le_init (init : Str) (obs : List ScrapeResult) :
    cleanPriceToFloat (runHist init obs) ≤ cleanPriceToFloat init := by
  induction obs generalizing init with
  | nil => exact le_rfl
  | cons o rest ih =>
    calc cleanPriceToFloat (runHist (stepHist init o) rest)
        ≤ cleanPriceToFloat (stepHist init o) := ih _
      _ ≤ cleanPriceToFloat init := stepHist_le _ _

theorem runHist_le_mem (init : Str) (obs : List ScrapeResult) (r : ScrapeResult)
    (hr : r ∈ obs) : cleanPriceToFloat (runHist init obs) ≤ r.priceFloat := by
  induction obs generalizing init with
  | nil => cases hr
  | cons o rest ih =>
    rcases List.mem_cons.mp hr with rfl | hr'
    · calc cleanPriceToFloat (runHist (stepHist init r) rest)
          ≤ cleanPriceToFloat (stepHist init r) := runHist_le_init _ _
        _ ≤ r.priceFloat := stepHist_le_price _ _
    · exact ih _ hr'

/-- C2: the stored historical low never increases at any observation,
after any sequence of observations it is at or below every price observed
in the sequence, and right after an observation it is at or below that
observation's current price (so `HistoricalLow <= CurrentPrice` whenever
both are numeric). -/
theorem c2_historicalLow :
    (∀ (s : Str) (r : ScrapeResult),
      cleanPriceToFloat (stepHist s r) ≤ cleanPriceToFloat s)
    ∧ (∀ (init : Str) (obs : List ScrapeResult) (r : ScrapeResult), r ∈ obs →
      cleanPriceToFloat (runHist init obs) ≤ r.priceFloat)
    ∧ (∀ (s : Str) (r : ScrapeResult),
      cleanPriceToFloat (stepHist s r) ≤ r.priceFloat) :=
  ⟨stepHist_le, runHist_le_mem, stepHist_le_price⟩

/-- C2 witness: two concrete observations (120 then 100) starting from
an empty historical cell. -/
theorem c2_witness :
    cleanPriceToFloat (stepHist "Não encontrado".toList
        ⟨true, none, "R$ 120,00".toList, (120 : ℕ), 95⟩)
      ≤ cleanPriceToFloat "Não encontrado".toList
    ∧ ((⟨true, none, "R$ 100,00".toList, (100 : ℕ), 95⟩ : ScrapeResult)
        ∈ [⟨true, none, "R$ 120,00".toList, (120 : ℕ), 95⟩,
           (⟨true, none, "R$ 100,00".toList, (100 : ℕ), 95⟩ : ScrapeResult)])
    ∧ cleanPriceToFloat (runHist "Não encontrado".toList
        [⟨true, none, "R$ 120,00".toList, (120 : ℕ), 95⟩,
         ⟨true, none, "R$ 100,00".toList, (100 : ℕ), 95⟩])
      ≤ ((100 : ℕ) : WithTop ℕ) := by
  have hmem : (⟨true, none, "R$ 100,00".toList, (100 : ℕ), 95⟩ : ScrapeResult)
      ∈ [⟨true, none, "R$ 120,00".toList, (120 : ℕ), 95⟩,
         (⟨true, none, "R$ 100,00".toList, (100 : ℕ), 95⟩ : ScrapeResult)] := by
    decide
  exact ⟨c2_historicalLow.1 _ _, hmem, c2_historicalLow.2.1 _ _ _ hmem⟩

/-- C4: the tracker scraper attempts the HTTP request up to
`MAX_RETRIES = 3` times; after each failed attempt number `i` (1-based) it
sleeps `RETRY_DELAY_SECONDS × i`; when every attempt fails it returns a
single "not found" result (`found = false`) instead of raising; a
successful first attempt returns the parsed results with no sleeps. -/
theorem c4_retryPolicy :
    (∀ (outcomes : ℕ → Bool) (parsed : List QuoteResult),
      (∀ i, i < MAX_RETRIES → outcomes i = false) →
      (searchGamePriceRetry outcomes parsed).1
          = [trackerFormatError Platform.steam
              "Número máximo de tentativas excedido.".toList]
      ∧ (searchGamePriceRetry outcomes parsed).1.length = 1
      ∧ (∀ q ∈ (searchGamePriceRetry outcomes parsed).1, q.found = false)
      ∧ (searchGamePriceRetry outcomes parsed).2
          = [RETRY_DELAY_SECONDS * 1, RETRY_DELAY_SECONDS * 2, RETRY_DELAY_SECONDS * 3])
    ∧ (∀ (outcomes : ℕ → Bool) (parsed : List QuoteResult),
      outcomes 0 = true →
      (searchGamePriceRetry outcomes parsed).1 = parsed
      ∧ (searchGamePriceRetry outcomes parsed).2 = []) := by
  constructor
  · intro outcomes parsed hfail
    have h0 := hfail 0 (by decide)
    have h1 := hfail 1 (by decide)
    have h2 := hfail 2 (by decide)
    have hrun : runAttempts RETRY_DELAY_SECONDS outcomes MAX_RETRIES 0
        = (none, [RETRY_DELAY_SECONDS * 1, RETRY_DELAY_SECONDS * 2,
            RETRY_DELAY_SECONDS * 3]) := by
      show runAttempts RETRY_DELAY_SECONDS outcomes 3 0 = _
      simp [runAttempts, h0, h1, h2]
    refine ⟨?_, ?_, ?_, ?_⟩
    · unfold searchGamePriceRetry
      rw [hrun]
    · unfold searchGamePriceRetry
      rw [hrun]
      rfl
    · unfold searchGamePriceRetry
      rw [hrun]
      intro q hq
      simp only at hq
      rcases List.mem_singleton.mp hq with rfl
      rfl
    · unfold searchGamePriceRetry
      rw [hrun]
  · intro outcomes parsed h0
    have hrun : runAttempts RETRY_DELAY_SECONDS outcomes MAX_RETRIES 0 = (some 0, []) := by
      show runAttempts RETRY_DELAY_SECONDS outcomes 3 0 = _
      simp [runAttempts, h0]
    constructor
    · unfold searchGamePriceRetry
      rw [hrun]
    · unfold searchGamePriceRetry
      rw [hrun]

/-- C4 witness: with all attempts failing, the scraper returns the
single error result after sleeping 2, 4 and 6 seconds. -/
theorem c4_witness :
    (∀ i, i < MAX_RETRIES → (fun _ => false) i = false)
    ∧ (searchGamePriceRetry (fun _ => false) []).1
        = [trackerFormatError Platform.steam
            "Número máximo de tentativas excedido.".toList]
    ∧ (searchGamePriceRetry (fun _ => false) []).2 = [2, 4, 6] := by
  have h := c4_retryPolicy.1 (fun _ => false) [] (fun i _ => rfl)
  exact ⟨fun i _ => rfl, h.1, h.2.2.2⟩

/-- Helper: the exact outcome of the retry loop when every attempt fails. -/
theorem searchGamePriceRetry_allFail (outcomes : ℕ → Bool) (parsed : List QuoteResult)
    (hfail : ∀ i, i < MAX_RETRIES → outcomes i = false) :
    searchGamePriceRetry outcomes parsed
      = ([trackerFormatError Platform.steam
          "Número máximo de tentativas excedido.".toList],
        [RETRY_DELAY_SECONDS * 1, RETRY_DELAY_SECONDS * 2, RETRY_DELAY_SECONDS * 3]) := by
  have h0 := hfail 0 (by decide)
  have h1 := hfail 1 (by decide)
  have h2 := hfail 2 (by decide)
  have hrun : runAttempts RETRY_DELAY_SECONDS outcomes MAX_RETRIES 0
      = (none, [RETRY_DELAY_SECONDS * 1, RETRY_DELAY_SECONDS * 2,
          RETRY_DELAY_SECONDS * 3]) := by
    show runAttempts RETRY_DELAY_SECONDS outcomes 3 0 = _
    simp [runAttempts, h0, h1, h2]
  unfold searchGamePriceRetry
  rw [hrun]

/-- C6: the per-game loop of `run_scraper` processes every row — the
output on `pre ++ bad :: post` is the per-row outputs of `pre`, of `bad`
and of `post`, so a failed game never aborts the remaining games; a game
whose Steam scrape failed gets "Não encontrado" in its Steam column while
its PSN columns are still computed from the PSN result; and a platform
search whose every retry fails yields exactly one not-found result. -/
theorem c6_batchIsolation :
    (∀ (date : Str) (pre post : List (GameRow × ScrapeResult × ScrapeResult))
      (bad : GameRow × ScrapeResult × ScrapeResult),
      runScraperRows date (pre ++ bad :: post)
        = runScraperRows date pre
          ++ processRow date bad.1 bad.2.1 bad.2.2 :: runScraperRows date post)
    ∧ (∀ (date : Str) (row : GameRow) (pRes : ScrapeResult),
      ¬ pyStrip row.nome = [] →
      (processRow date row scrapeFormatError pRes).steamCurStr = "Não encontrado".toList
      ∧ (processRow date row scrapeFormatError pRes).steamHistStr = row.steamHistStr
      ∧ (processRow date row scrapeFormatError pRes).psnCurStr
          = formatFloatToPriceStr pRes.priceFloat
      ∧ (processRow date row scrapeFormatError pRes).psnHistStr
          = stepHist row.psnHistStr pRes)
    ∧ (∀ (outcomes : ℕ → Bool) (parsed : List QuoteResult),
      (∀ i, i < MAX_RETRIES → outcomes i = false) →
      (searchGamePriceRetry outcomes parsed).1.length = 1
      ∧ ∀ q ∈ (searchGamePriceRetry outcomes parsed).1, q.found = false) := by
  refine ⟨?_, ?_, ?_⟩
  · intro date pre post bad
    unfold runScraperRows
    simp
  · intro date row pRes hname
    have hstep : stepHist row.steamHistStr scrapeFormatError = row.steamHistStr := by
      unfold stepHist
      rw [if_neg, if_neg]
      · rintro ⟨-, hfound⟩
        cases hfound
      · exact not_top_lt
    unfold processRow
    rw [if_neg hname]
    exact ⟨rfl, hstep, rfl, rfl⟩
  · intro outcomes parsed hfail
    rw [searchGamePriceRetry_allFail outcomes parsed hfail]
    constructor
    · rfl
    · intro q hq
      rcases List.mem_singleton.mp hq with rfl
      rfl

/-- C6 witness: a batch of two games in which the first game's scrapes
both fail; the second game is still processed from its own results. -/
theorem c6_witness :
    (¬ pyStrip "Hades".toList = [])
    ∧ runScraperRows "2024-01-01".toList
        [(⟨"Hades".toList, [], "100".toList, [], "200".toList, []⟩,
          scrapeFormatError, scrapeFormatError),
         (⟨"Celeste".toList, [], "50".toList, [], "60".toList, []⟩,
          ⟨true, none, "R$ 40,00".toList, (40 : ℕ), 95⟩,
          ⟨true, none, "R$ 70,00".toList, (70 : ℕ), 95⟩)]
      = runScraperRows "2024-01-01".toList
          [(⟨"Hades".toList, [], "100".toList, [], "200".toList, []⟩,
            scrapeFormatError, scrapeFormatError)]
        ++ processRow "2024-01-01".toList
            ⟨"Celeste".toList, [], "50".toList, [], "60".toList, []⟩
            ⟨true, none, "R$ 40,00".toList, (40 : ℕ), 95⟩
            ⟨true, none, "R$ 70,00".toList, (70 : ℕ), 95⟩ :: []
    ∧ (processRow "2024-01-01".toList
          ⟨"Hades".toList, [], "100".toList, [], "200".toList, []⟩
          scrapeFormatError scrapeFormatError).steamCurStr = "Não encontrado".toList := by
  have hname : ¬ pyStrip "Hades".toList = [] := by decide
  refine ⟨hname, ?_, ?_⟩
  · exact c6_batchIsolation.1 "2024-01-01".toList
      [(⟨"Hades".toList, [], "100".toList, [], "200".toList, []⟩,
        scrapeFormatError, scrapeFormatError)] []
      (⟨"Celeste".toList, [], "50".toList, [], "60".toList, []⟩,
        ⟨true, none, "R$ 40,00".toList, (40 : ℕ), 95⟩,
        ⟨true, none, "R$ 70,00".toList, (70 : ℕ), 95⟩)
  · exact (c6_batchIsolation.2.1 "2024-01-01".toList
      ⟨"Hades".toList, [], "100".toList, [], "200".toList, []⟩
      scrapeFormatError hname).1

/-! ### Claim C8: aggregator selection -/

theorem aggStepSteam_of_psn {sim : Str → Str → ℕ} {gameName : Str} {st : AggState}
    {r : QuoteResult} (h : r.platform = Platform.psn) :
    aggStepSteam sim gameName st r = st := by
  unfold aggStepSteam
  rw [if_neg]
  rintro ⟨hp, -⟩
  rw [h] at hp
  cases hp

theorem aggStepPsn_of_steam {sim : Str → Str → ℕ} {gameName : Str} {st : AggState}
    {r : QuoteResult} (h : r.platform = Platform.steam) :
    aggStepPsn sim gameName st r = st := by
  unfold aggStepPsn
  rw [if_neg]
  rintro ⟨hp, -⟩
  rw [h] at hp
  cases hp

/-- Invariant preservation for one platform update, stated for the Steam
update; extending `processed` with a candidate handled by this update. -/
theorem aggInv_extend {sim : Str → Str → ℕ} {gameName : Str} {p : Platform}
    {processed : List QuoteResult} {st : AggState} (r : QuoteResult)
    (h : AggInv sim gameName p processed st)
    (hnew : keptCand sim gameName p r → simScore sim gameName r ≤ stHi p st) :
    AggInv sim gameName p (processed ++ [r]) st := by
  obtain ⟨h1, h2, h3⟩ := h
  refine ⟨h1, ?_, ?_⟩
  · intro c hc
    obtain ⟨hk, hm, hs⟩ := h2 c hc
    exact ⟨hk, List.mem_append_left _ hm, hs⟩
  · intro c hc hk
    rcases List.mem_append.mp hc with hc | hc
    · exact h3 c hc hk
    · rcases List.mem_singleton.mp hc with rfl
      exact hnew hk


theorem aggStep_inv {sim : Str → Str → ℕ} {gameName : Str} {p : Platform}
    {processed : List QuoteResult} {st : AggState} (r : QuoteResult)
    (h : AggInv sim gameName p processed st) :
    AggInv sim gameName p (processed ++ [r]) (aggStep sim gameName st r) := by
  unfold aggStep
  by_cases hskip : r.found = false ∨ isRelevant sim r.title gameName = false
  · rw [if_pos hskip]
    refine aggInv_extend r h ?_
    intro hk
    rcases hskip with hf | hrel
    · rw [hk.1] at hf; cases hf
    · rw [hk.2.1] at hrel; cases hrel
  · rw [if_neg hskip]
    push_neg at hskip
    obtain ⟨hfound, hrel⟩ := hskip
    rw [Bool.ne_false_iff] at hfound hrel
    obtain ⟨hh1, hh2, hh3⟩ := h
    cases hplat : r.platform with
    | steam =>
      rw [aggStepPsn_of_steam hplat]
      unfold aggStepSteam
      by_cases hcmp : st.hiSteam < simScore sim gameName r
      · rw [if_pos ⟨hplat, hcmp⟩]
        cases p with
        | steam =>
          simp only [stBest, stHi] at hh1 hh2 hh3
          refine ⟨?_, ?_, ?_⟩ <;> simp only [AggInv, stBest, stHi]
          · intro hnone; cases hnone
          · intro c hc
            rcases Option.some_inj.mp hc with rfl
            exact ⟨⟨hfound, hrel, hplat⟩,
              List.mem_append_right _ (List.mem_singleton.mpr rfl), rfl⟩
          · intro c hc hk
            rcases List.mem_append.mp hc with hc | hc
            · exact le_trans (hh3 c hc hk) (le_of_lt hcmp)
            · rcases List.mem_singleton.mp hc with rfl
              exact le_rfl
        | psn =>
          simp only [stBest, stHi] at hh1 hh2 hh3
          refine ⟨?_, ?_, ?_⟩ <;> simp only [AggInv, stBest, stHi]
          · exact hh1
          · intro c hc
            obtain ⟨hk, hm, hs⟩ := hh2 c hc
            exact ⟨hk, List.mem_append_left _ hm, hs⟩
          · intro c hc hk
            rcases List.mem_append.mp hc with hc | hc
            · exact hh3 c hc hk
            · rcases List.mem_singleton.mp hc with rfl
              exact absurd (hplat.symm.trans hk.2.2) (by decide)
      · rw [if_neg (fun hc => hcmp hc.2)]
        refine aggInv_extend r ⟨hh1, hh2, hh3⟩ ?_
        intro hk
        cases p with
        | steam =>
          simp only [stHi]
          exact not_lt.mp hcmp
        | psn =>
          exact absurd (hplat.symm.trans hk.2.2) (by decide)
    | psn =>
      rw [aggStepSteam_of_psn hplat]
      unfold aggStepPsn
      by_cases hcmp : st.hiPsn < simScore sim gameName r
      · rw [if_pos ⟨hplat, hcmp⟩]
        cases p with
        | psn =>
          simp only [stBest, stHi] at hh1 hh2 hh3
          refine ⟨?_, ?_, ?_⟩ <;> simp only [AggInv, stBest, stHi]
          · intro hnone; cases hnone
          · intro c hc
            rcases Option.some_inj.mp hc with rfl
            exact ⟨⟨hfound, hrel, hplat⟩,
              List.mem_append_right _ (List.mem_singleton.mpr rfl), rfl⟩
          · intro c hc hk
            rcases List.mem_append.mp hc with hc | hc
            · exact le_trans (hh3 c hc hk) (le_of_lt hcmp)
            · rcases List.mem_singleton.mp hc with rfl
              exact le_rfl
        | steam =>
          simp only [stBest, stHi] at hh1 hh2 hh3
          refine ⟨?_, ?_, ?_⟩ <;> simp only [AggInv, stBest, stHi]
          · exact hh1
          · intro c hc
            obtain ⟨hk, hm, hs⟩ := hh2 c hc
            exact ⟨hk, List.mem_append_left _ hm, hs⟩
          · intro c hc hk
            rcases List.mem_append.mp hc with hc | hc
            · exact hh3 c hc hk
            · rcases List.mem_singleton.mp hc with rfl
              exact absurd (hplat.symm.trans hk.2.2) (by decide)
      · rw [if_neg (fun hc => hcmp hc.2)]
        refine aggInv_extend r ⟨hh1, hh2, hh3⟩ ?_
        intro hk
        cases p with
        | psn =>
          simp only [stHi]
          exact not_lt.mp hcmp
        | steam =>
          exact absurd (hplat.symm.trans hk.2.2) (by decide)

theorem aggFold_inv {sim : Str → Str → ℕ} {gameName : Str} {p : Platform} :
    ∀ (l processed : List QuoteResult) (st : AggState),
      AggInv sim gameName p processed st →
      AggInv sim gameName p (processed ++ l) (l.foldl (aggStep sim gameName) st) := by
  intro l
  induction l with
  | nil => intro processed st h; simpa using h
  | cons r rest ih =>
    intro processed st h
    have h2 := ih (processed ++ [r]) _ (aggStep_inv r h)
    rw [List.append_assoc] at h2
    simpa using h2

theorem aggInv_init {sim : Str → Str → ℕ} {gameName : Str} {p : Platform} :
    AggInv sim gameName p [] ⟨none, 0, none, 0⟩ := by
  cases p <;>
    refine ⟨fun _ => rfl, ?_, ?_⟩ <;>
    · intro c hc
      cases hc

theorem aggInv_main (sim : Str → Str → ℕ) (gameName : Str) (p : Platform)
    (steamResults psnResults : List QuoteResult) :
    AggInv sim gameName p (steamResults ++ psnResults)
      ((steamResults ++ psnResults).foldl (aggStep sim gameName) ⟨none, 0, none, 0⟩) := by
  have := @aggFold_inv sim gameName p
    (steamResults ++ psnResults) [] ⟨none, 0, none, 0⟩ aggInv_init
  simpa using this

theorem bestOf_getBestMatch (sim : Str → Str → ℕ) (gameName : Str) (p : Platform)
    (steamResults psnResults : List QuoteResult) :
    bestOf p (getBestMatchForGame sim gameName steamResults psnResults)
      = (if (stBest p ((steamResults ++ psnResults).foldl (aggStep sim gameName)
            ⟨none, 0, none, 0⟩)).isSome
          ∧ GamePriceAggregator.SIMILARITY_THRESHOLD
            ≤ stHi p ((steamResults ++ psnResults).foldl (aggStep sim gameName)
                ⟨none, 0, none, 0⟩)
        then stBest p ((steamResults ++ psnResults).foldl (aggStep sim gameName)
            ⟨none, 0, none, 0⟩)
        else none) := by
  cases p <;> rfl

/-- C8: for each platform the aggregator keeps exactly a relevant, found
candidate of maximal similarity; the chosen candidate's score is accepted
when it is at least the threshold (85), so a best score of exactly 85 is
accepted; and when every relevant candidate scores below the threshold
the platform is omitted from the result. -/
theorem c8_aggregatorSelection (sim : Str → Str → ℕ) (gameName : Str) (p : Platform)
    (steamResults psnResults : List QuoteResult) :
    (∀ c, bestOf p (getBestMatchForGame sim gameName steamResults psnResults) = some c →
      keptCand sim gameName p c ∧ c ∈ steamResults ++ psnResults
      ∧ GamePriceAggregator.SIMILARITY_THRESHOLD ≤ simScore sim gameName c
      ∧ ∀ c' ∈ steamResults ++ psnResults, keptCand sim gameName p c' →
          simScore sim gameName c' ≤ simScore sim gameName c)
    ∧ ((∀ c ∈ steamResults ++ psnResults, keptCand sim gameName p c →
          simScore sim gameName c < GamePriceAggregator.SIMILARITY_THRESHOLD) →
      bestOf p (getBestMatchForGame sim gameName steamResults psnResults) = none)
    ∧ ((∃ c ∈ steamResults ++ psnResults, keptCand sim gameName p c
          ∧ simScore sim gameName c = GamePriceAggregator.SIMILARITY_THRESHOLD) →
      (∀ c ∈ steamResults ++ psnResults, keptCand sim gameName p c →
          simScore sim gameName c ≤ GamePriceAggregator.SIMILARITY_THRESHOLD) →
      ∃ c, bestOf p (getBestMatchForGame sim gameName steamResults psnResults) = some c
        ∧ keptCand sim gameName p c
        ∧ simScore sim gameName c = GamePriceAggregator.SIMILARITY_THRESHOLD) := by
  obtain ⟨h1, h2, h3⟩ := aggInv_main sim gameName p steamResults psnResults
  rw [bestOf_getBestMatch]
  set st := (steamResults ++ psnResults).foldl (aggStep sim gameName) ⟨none, 0, none, 0⟩
    with hst
  refine ⟨?_, ?_, ?_⟩
  · intro c hc
    by_cases hcond : (stBest p st).isSome
        ∧ GamePriceAggregator.SIMILARITY_THRESHOLD ≤ stHi p st
    · rw [if_pos hcond] at hc
      obtain ⟨hk, hm, hs⟩ := h2 c hc
      refine ⟨hk, hm, ?_, ?_⟩
      · rw [← hs]; exact hcond.2
      · intro c' hm' hk'
        rw [← hs]; exact h3 c' hm' hk'
    · rw [if_neg hcond] at hc
      cases hc
  · intro hall
    by_cases hcond : (stBest p st).isSome
        ∧ GamePriceAggregator.SIMILARITY_THRESHOLD ≤ stHi p st
    · exfalso
      obtain ⟨hsome, hth⟩ := hcond
      rcases Option.isSome_iff_exists.mp hsome with ⟨c, hc⟩
      obtain ⟨hk, hm, hs⟩ := h2 c hc
      have := hall c hm hk
      rw [← hs] at this
      omega
    · rw [if_neg hcond]
  · intro ⟨c0, hm0, hk0, hs0⟩ hall
    have hge : GamePriceAggregator.SIMILARITY_THRESHOLD ≤ stHi p st := by
      rw [← hs0]; exact h3 c0 hm0 hk0
    have hsome : (stBest p st).isSome := by
      cases hbest : stBest p st with
      | none =>
        have h0 := h1 hbest
        rw [h0] at hge
        exact absurd hge (by decide)
      | some c => rfl
    rw [if_pos ⟨hsome, hge⟩]
    rcases Option.isSome_iff_exists.mp hsome with ⟨c, hc⟩
    obtain ⟨hk, hm, hs⟩ := h2 c hc
    refine ⟨c, hc, hk, ?_⟩
    have hle := hall c hm hk
    rw [← hs] at hle
    omega

/-- C8 witness: the "Hollow Knight" scenario — the exact match at the
threshold is selected, the soundtrack candidate is excluded by the
keyword filter. -/
theorem c8_witness :
    ∃ c, bestOf Platform.steam
        (getBestMatchForGame
          (fun _ t => if t = "hollow knight".toList then (85 : ℕ) else 60)
          "Hollow Knight".toList
          [⟨true, some "Hollow Knight".toList, "R$ 46".toList, none, none, Platform.steam⟩,
           ⟨true, some "Hollow Knight: Voidheart".toList, "R$ 60".toList, none, none,
             Platform.steam⟩,
           ⟨true, some "Hollow Knight Soundtrack".toList, "R$ 20".toList, none, none,
             Platform.steam⟩] [])
      = some c
    ∧ keptCand (fun _ t => if t = "hollow knight".toList then (85 : ℕ) else 60)
        "Hollow Knight".toList Platform.steam c
    ∧ simScore (fun _ t => if t = "hollow knight".toList then (85 : ℕ) else 60)
        "Hollow Knight".toList c = GamePriceAggregator.SIMILARITY_THRESHOLD := by
  refine (c8_aggregatorSelection
    (fun _ t => if t = "hollow knight".toList then (85 : ℕ) else 60)
    "Hollow Knight".toList Platform.steam
    [⟨true, some "Hollow Knight".toList, "R$ 46".toList, none, none, Platform.steam⟩,
     ⟨true, some "Hollow Knight: Voidheart".toList, "R$ 60".toList, none, none,
       Platform.steam⟩,
     ⟨true, some "Hollow Knight Soundtrack".toList, "R$ 20".toList, none, none,
       Platform.steam⟩] []).2.2 ?_ ?_
  · refine ⟨⟨true, some "Hollow Knight".toList, "R$ 46".toList, none, none,
      Platform.steam⟩, ?_, ?_, ?_⟩
    · decide
    · refine ⟨rfl, ?_, rfl⟩
      decide
    · decide
  · intro c hc hk
    simp only [List.append_nil, List.mem_cons, List.mem_singleton] at hc
    rcases hc with rfl | rfl | rfl | hx
    · decide
    · decide
    · exact absurd hk.2.1 (by decide)
    · exact absurd hx (List.not_mem_nil c)

/-! ### Claims C3, C1, C10 -/

theorem latestDateAux_mono : ∀ (l : List Notif) (x : ℤ),
    ∃ y, latestDateAux (some x) l = some y ∧ x ≤ y := by
  intro l
  induction l with
  | nil => exact fun x => ⟨x, rfl, le_rfl⟩
  | cons n rest ih =>
    intro x
    simp only [latestDateAux]
    by_cases hc : x < n.dataSec
    · rw [if_pos hc]
      obtain ⟨y, hy, hxy⟩ := ih n.dataSec
      exact ⟨y, hy, le_trans (le_of_lt hc) hxy⟩
    · rw [if_neg hc]
      exact ih x

theorem latestDateAux_ge_mem : ∀ (l : List Notif) (acc : Option ℤ) (n : Notif),
    n ∈ l → ∃ y, latestDateAux acc l = some y ∧ n.dataSec ≤ y := by
  intro l
  induction l with
  | nil => intro acc n hn; cases hn
  | cons m rest ih =>
    intro acc n hn
    rcases List.mem_cons.mp hn with rfl | hn'
    · cases acc with
      | none =>
        simp only [latestDateAux]
        exact latestDateAux_mono rest n.dataSec
      | some x =>
        simp only [latestDateAux]
        by_cases hc : x < n.dataSec
        · rw [if_pos hc]
          exact latestDateAux_mono rest n.dataSec
        · rw [if_neg hc]
          obtain ⟨y, hy, hxy⟩ := latestDateAux_mono rest x
          exact ⟨y, hy, le_trans (not_lt.mp hc) hxy⟩
    · exact ih _ n hn'

theorem addNotification_shape (notifs : List Notif) (tipo msg : Str)
    (gameName : Option Str) (now : ℤ) :
    addNotification notifs tipo msg gameName now = (notifs, false)
    ∨ addNotification notifs tipo msg gameName now
        = (notifs ++ [⟨tipo, msg, now⟩], true) := by
  cases gameName with
  | none =>
    simp only [addNotification]
    by_cases h : notifs.any (fun n => decide (n.tipo = tipo) && decide (n.mensagem = msg))
    · rw [if_pos h]; exact Or.inl rfl
    · rw [if_neg h]; exact Or.inr rfl
  | some g =>
    simp only [addNotification]
    by_cases hp : tipo = promocaoTok ∧ ¬ g = []
    · rw [if_pos hp]
      by_cases he : notifs.filter
          (fun n => decide (n.tipo = promocaoTok) && containsSub g n.mensagem) = []
      · rw [if_pos he]; exact Or.inr rfl
      · rw [if_neg he]
        cases hl : latestDateAux none (notifs.filter
            (fun n => decide (n.tipo = promocaoTok) && containsSub g n.mensagem)) with
        | none => exact Or.inr rfl
        | some latest =>
          simp only []
          by_cases hd : Int.fdiv (now - latest) 86400 < 30
          · rw [if_pos hd]; exact Or.inl rfl
          · rw [if_neg hd]; exact Or.inr rfl
    · rw [if_neg hp]
      by_cases h : notifs.any (fun n => decide (n.tipo = tipo) && decide (n.mensagem = msg))
      · rw [if_pos h]; exact Or.inl rfl
      · rw [if_neg h]; exact Or.inr rfl

/-- Monotonicity of the `timedelta.days` computation (floor division by
86400). -/
theorem fdiv_day_mono {a b : ℤ} (h : a ≤ b) :
    Int.fdiv a 86400 ≤ Int.fdiv b 86400 := by
  rw [Int.fdiv_eq_ediv _ (by norm_num), Int.fdiv_eq_ediv _ (by norm_num)]
  exact Int.ediv_le_ediv (by norm_num) h

/-- General cooldown of `_add_notification`: if any prior promotion
notification whose message contains the game name is less than 30 days
old, the new promotion is suppressed and the sheet is unchanged.  (The
code tests the latest such notification; the latest is at least as recent
as the given one, so its age in days is no larger.) -/
theorem addNotification_suppress (notifs : List Notif) (g m : Str) (now : ℤ)
    (n : Notif) (hmem : n ∈ notifs) (htipo : n.tipo = promocaoTok)
    (hmsg : containsSub g n.mensagem = true) (hg : ¬ g = [])
    (hrecent : Int.fdiv (now - n.dataSec) 86400 < 30) :
    addNotification notifs promocaoTok m (some g) now = (notifs, false) := by
  have hfil : n ∈ notifs.filter
      (fun x => decide (x.tipo = promocaoTok) && containsSub g x.mensagem) :=
    List.mem_filter.mpr ⟨hmem, by simp [htipo, hmsg]⟩
  obtain ⟨y, hy, hty⟩ := latestDateAux_ge_mem _ none _ hfil
  have hne : ¬ notifs.filter
      (fun x => decide (x.tipo = promocaoTok) && containsSub g x.mensagem) = [] :=
    List.ne_nil_of_mem hfil
  have hdays : Int.fdiv (now - y) 86400 < 30 :=
    lt_of_le_of_lt (fdiv_day_mono (by omega)) hrecent
  simp only [addNotification]
  rw [if_pos ⟨trivial, hg⟩, if_neg hne, hy]
  simp only []
  rw [if_pos hdays]

/-- C3: cross-game-platform cooldown.  First, the general statement: a
new promotion notification for a game is suppressed whenever any prior
promotion notification mentioning that game is less than 30 days old
(`timedelta.days` of its age is below 30).  Second, the claim's
two-evaluation consequence for ANY gap shorter than 30 days (2592000
seconds), which covers the 10-day instance: whatever the prior state,
the two calls emit at most one notification in total. -/
theorem c3_promotionCooldown :
    (∀ (notifs : List Notif) (g m : Str) (now : ℤ) (n : Notif),
      n ∈ notifs → n.tipo = promocaoTok → containsSub g n.mensagem = true →
      ¬ g = [] → Int.fdiv (now - n.dataSec) 86400 < 30 →
      addNotification notifs promocaoTok m (some g) now = (notifs, false))
    ∧ (∀ (notifs : List Notif) (g m1 m2 : Str) (t1 t2 : ℤ),
      containsSub g m1 = true → containsSub g m2 = true → ¬ g = [] →
      t2 - t1 < 2592000 →
      ¬ ((addNotification notifs promocaoTok m1 (some g) t1).2 = true
        ∧ (addNotification (addNotification notifs promocaoTok m1 (some g) t1).1
            promocaoTok m2 (some g) t2).2 = true)) := by
  refine ⟨addNotification_suppress, ?_⟩
  intro notifs g m1 m2 t1 t2 hm1 hm2 hg ht
  rintro ⟨he1, he2⟩
  rcases addNotification_shape notifs promocaoTok m1 (some g) t1 with hs | hs
  · rw [hs] at he1
    cases he1
  · rw [hs] at he2
    have hrecent : Int.fdiv (t2 - (⟨promocaoTok, m1, t1⟩ : Notif).dataSec) 86400 < 30 := by
      show Int.fdiv (t2 - t1) 86400 < 30
      have h1 : Int.fdiv (t2 - t1) 86400 ≤ Int.fdiv 2591999 86400 :=
        fdiv_day_mono (by omega)
      have h2 : Int.fdiv 2591999 86400 = 29 := by decide
      omega
    have hsup := addNotification_suppress (notifs ++ [⟨promocaoTok, m1, t1⟩]) g m2 t2
      ⟨promocaoTok, m1, t1⟩
      (List.mem_append_right _ (List.mem_singleton.mpr rfl)) rfl hm1 hg hrecent
    rw [hsup] at he2
    cases he2

/-- C3 witness: a prior Hades promotion 29 days old suppresses a new one
(general part), and from an empty sheet the first Hades promotion is
emitted while the second, 10 days (864000 seconds) later, is
suppressed. -/
theorem c3_witness :
    addNotification [⟨promocaoTok, "Promoção na Steam! 'Hades' por R$10.".toList, 0⟩]
        promocaoTok "Promoção na PSN! 'Hades' por R$9.".toList
        (some "Hades".toList) 2505600
      = ([⟨promocaoTok, "Promoção na Steam! 'Hades' por R$10.".toList, 0⟩], false)
    ∧ (addNotification [] promocaoTok "Promoção na Steam! 'Hades' por R$10.".toList
        (some "Hades".toList) 0).2 = true
    ∧ ¬ ((addNotification [] promocaoTok "Promoção na Steam! 'Hades' por R$10.".toList
          (some "Hades".toList) 0).2 = true
      ∧ (addNotification
          (addNotification [] promocaoTok "Promoção na Steam! 'Hades' por R$10.".toList
            (some "Hades".toList) 0).1
          promocaoTok "Promoção na PSN! 'Hades' por R$9.".toList
          (some "Hades".toList) 864000).2 = true) := by
  refine ⟨?_, by decide, ?_⟩
  · exact c3_promotionCooldown.1
      [⟨promocaoTok, "Promoção na Steam! 'Hades' por R$10.".toList, 0⟩]
      "Hades".toList "Promoção na PSN! 'Hades' por R$9.".toList 2505600
      ⟨promocaoTok, "Promoção na Steam! 'Hades' por R$10.".toList, 0⟩
      (List.mem_singleton.mpr rfl) rfl (by decide) (by decide) (by decide)
  · exact c3_promotionCooldown.2 [] "Hades".toList
      "Promoção na Steam! 'Hades' por R$10.".toList
      "Promoção na PSN! 'Hades' por R$9.".toList 0 864000
      (by decide) (by decide) (by decide) (by decide)

/-- C1 counterexample: a wish updated now with Steam price 80,
historical low 50, and a 30-day price history whose mean is 100.  The
spec's Rule A fires (80 ≤ 0.80 × 100), but the code's promotion
evaluation emits nothing: it never computes a trailing mean and only
compares the current price against 1.01 × the historical low. -/
theorem c1_counterexample :
    specRuleA 0 [(-86400, 100)] 80
    ∧ promoEmissions 0 ⟨80, 50, 0, 0, some 0⟩ = [] := by
  constructor
  · unfold specRuleA
    norm_num
  · unfold promoEmissions
    norm_num

/-- C1 (amended): the promotion evaluation consults no price history.
For a row with a parseable update time it emits a notification iff the
row was updated within 24 hours and some platform satisfies
`0 < CurrentPrice ≤ 1.01 × HistoricalLow`; when Steam satisfies it, the
emission is exactly the Steam one. -/
theorem c1_promotionRule (now : ℤ) (w : Wish) (lu : ℤ) (hlu : w.lastUpdate = some lu) :
    (¬ promoEmissions now w = [] ↔
      ((now - lu : ℤ) : ℚ) / 3600 ≤ 24 ∧
        ((w.steamCur > 0 ∧ w.steamCur ≤ w.steamLow * (101 / 100))
         ∨ (w.psnCur > 0 ∧ w.psnCur ≤ w.psnLow * (101 / 100))))
    ∧ (((now - lu : ℤ) : ℚ) / 3600 ≤ 24 →
      w.steamCur > 0 → w.steamCur ≤ w.steamLow * (101 / 100) →
      promoEmissions now w = [(Platform.steam, w.steamCur)]) := by
  unfold promoEmissions
  rw [hlu]
  simp only []
  by_cases hgate : ((now - lu : ℤ) : ℚ) / 3600 ≤ 24
  · rw [if_pos hgate]
    by_cases hs : w.steamCur > 0 ∧ w.steamCur ≤ w.steamLow * (101 / 100)
    · rw [if_pos hs, if_neg (fun hc => hc.2 hs)]
      refine ⟨⟨fun _ => ⟨hgate, Or.inl hs⟩, fun _ => by simp⟩, fun _ _ _ => by simp⟩
    · rw [if_neg hs]
      by_cases hp : w.psnCur > 0 ∧ w.psnCur ≤ w.psnLow * (101 / 100)
      · rw [if_pos ⟨hp, hs⟩]
        refine ⟨⟨fun _ => ⟨hgate, Or.inr hp⟩, fun _ => by simp⟩,
          fun _ h1 h2 => absurd ⟨h1, h2⟩ hs⟩
      · rw [if_neg (fun hc => hp hc.1)]
        refine ⟨⟨fun hne => absurd (by simp) hne, ?_⟩,
          fun _ h1 h2 => absurd ⟨h1, h2⟩ hs⟩
        rintro ⟨-, h | h⟩
        · exact absurd h hs
        · exact absurd h hp
  · rw [if_neg hgate]
    exact ⟨⟨fun hne => absurd rfl hne, fun hc => absurd hc.1 hgate⟩,
      fun hg => absurd hg hgate⟩

/-- C1 witness: Steam current 80 with historical low 100 fires the
code's rule and emits the Steam notification. -/
theorem c1_witness :
    ((⟨80, 100, 0, 0, some 0⟩ : Wish).lastUpdate = some 0)
    ∧ promoEmissions 0 ⟨80, 100, 0, 0, some 0⟩ = [(Platform.steam, 80)] := by
  refine ⟨rfl, ?_⟩
  have h := (c1_promotionRule 0 ⟨80, 100, 0, 0, some 0⟩ 0 rfl).2
  have := h (by norm_num) (by norm_num) (by norm_num)
  simpa using this

/-- C10: in one evaluation run at most one promotion notification is
attempted per game; when the Steam condition holds, no PSN notification
is attempted and any emission is the Steam one with the Steam price. -/
theorem c10_onePromotionPerGame :
    (∀ (now : ℤ) (w : Wish), (promoEmissions now w).length ≤ 1)
    ∧ (∀ (now : ℤ) (w : Wish),
      w.steamCur > 0 → w.steamCur ≤ w.steamLow * (101 / 100) →
      ∀ q, ¬ (Platform.psn, q) ∈ promoEmissions now w)
    ∧ (∀ (now : ℤ) (w : Wish) (e : Platform × ℚ),
      w.steamCur > 0 → w.steamCur ≤ w.steamLow * (101 / 100) →
      e ∈ promoEmissions now w → e = (Platform.steam, w.steamCur)) := by
  have hshape : ∀ (now : ℤ) (w : Wish),
      promoEmissions now w = []
      ∨ promoEmissions now w = [(Platform.steam, w.steamCur)]
      ∨ (promoEmissions now w = [(Platform.psn, w.psnCur)]
          ∧ ¬ (w.steamCur > 0 ∧ w.steamCur ≤ w.steamLow * (101 / 100))) := by
    intro now w
    unfold promoEmissions
    cases hlu : w.lastUpdate with
    | none => exact Or.inl rfl
    | some lu =>
      simp only []
      by_cases hgate : ((now - lu : ℤ) : ℚ) / 3600 ≤ 24
      · rw [if_pos hgate]
        by_cases hs : w.steamCur > 0 ∧ w.steamCur ≤ w.steamLow * (101 / 100)
        · rw [if_pos hs, if_neg (fun hc => hc.2 hs)]
          exact Or.inr (Or.inl rfl)
        · rw [if_neg hs]
          by_cases hp : w.psnCur > 0 ∧ w.psnCur ≤ w.psnLow * (101 / 100)
          · rw [if_pos ⟨hp, hs⟩]
            exact Or.inr (Or.inr ⟨rfl, hs⟩)
          · rw [if_neg (fun hc => hp hc.1)]
            exact Or.inl rfl
      · rw [if_neg hgate]
        exact Or.inl rfl
  refine ⟨?_, ?_, ?_⟩
  · intro now w
    rcases hshape now w with h | h | ⟨h, -⟩ <;> rw [h] <;> simp
  · intro now w h1 h2 q hmem
    rcases hshape now w with h | h | ⟨h, hns⟩
    · rw [h] at hmem; cases hmem
    · rw [h] at hmem
      rcases List.mem_singleton.mp hmem with heq
      cases heq
    · exact hns ⟨h1, h2⟩
  · intro now w e h1 h2 hmem
    rcases hshape now w with h | h | ⟨h, hns⟩
    · rw [h] at hmem; cases hmem
    · rw [h] at hmem
      exact List.mem_singleton.mp hmem
    · exact absurd ⟨h1, h2⟩ hns

/-- C10 witness: a wish whose Steam and PSN conditions both hold emits
no PSN notification. -/
theorem c10_witness :
    (promoEmissions 0 ⟨80, 100, 10, 100, some 0⟩).length ≤ 1
    ∧ (¬ (Platform.psn, (10 : ℚ)) ∈ promoEmissions 0 ⟨80, 100, 10, 100, some 0⟩)
    ∧ ((80 : ℚ) > 0 ∧ (80 : ℚ) ≤ 100 * (101 / 100)) := by
  refine ⟨c10_onePromotionPerGame.1 0 _, ?_, by norm_num⟩
  exact c10_onePromotionPerGame.2.1 0 ⟨80, 100, 10, 100, some 0⟩
    (by norm_num) (by norm_num) 10

end ApiJogos
